import Mathlib

/-!
Verification of the table-grid core of `camelot` (`camelot/table.py`).

The development shallowly embeds the `Table` class: grid construction
(`Table.init` for `Table.__init__`), edge assignment from detected line
segments (`set_edges`), spanning-cell inference (`set_spanning`) and text
read-out (`get_list`).  Coordinates are rationals (the Python code computes
with floats through `np.isclose`; every comparison the code performs is
exact rational arithmetic on the given inputs).  Python's in-place list
mutation `self.cells[J][I].left = True` is embedded as a functional update,
including Python's negative-index semantics (an index `-1` selects the last
element), which the source relies on in its `I - 1` accesses when `I = 0`.
-/

namespace Camelot

def qadd (a b : ℚ) : ℚ := mkRat (a.num * b.den + b.num * a.den) (a.den * b.den)

def qsub (a b : ℚ) : ℚ := mkRat (a.num * b.den - b.num * a.den) (a.den * b.den)

def qmul (a b : ℚ) : ℚ := mkRat (a.num * b.num) (a.den * b.den)

def qle (a b : ℚ) : Bool := decide (a.num * b.den ≤ b.num * a.den)

def qlt (a b : ℚ) : Bool := decide (a.num * b.den < b.num * a.den)

def qabs (a : ℚ) : ℚ := if qlt a 0 then Rat.neg a else a

/-- The default relative tolerance of `np.isclose` (`rtol=1e-05`). -/
def rtol : ℚ := mkRat 1 100000

/-- Embeds `np.isclose(a, b, atol=jtol)`:
`|a - b| <= atol + rtol * |b|` with `rtol = 1e-05`. -/
def isclose (a b atol : ℚ) : Bool := qle (qabs (qsub a b)) (qadd atol (qmul rtol (qabs b)))

/-- Modelled from the spec: the `Cell` collaborator (its module `cell.py` is not
among the shown sources) is a rectangle `(x1, y1, x2, y2)` =
(left-x, bottom-y, right-x, top-y) with four boolean edge flags
(`left`, `right`, `top`, `bottom`), two boolean span flags
(`spanning_h`, `spanning_v`) and a text payload accumulated upstream. -/
structure Cell where
  x1 : ℚ
  y1 : ℚ
  x2 : ℚ
  y2 : ℚ
  left : Bool
  right : Bool
  top : Bool
  bottom : Bool
  spanning_h : Bool
  spanning_v : Bool
  text : String
deriving DecidableEq

/-- Modelled from the spec: a freshly constructed `Cell(x1, y1, x2, y2)` has all
edge and span flags unset and an empty text payload. -/
def Cell.init (x1 y1 x2 y2 : ℚ) : Cell :=
  ⟨x1, y1, x2, y2, false, false, false, false, false, false, ""⟩

/-- Modelled from the spec: `get_bounded_edges` is the number of edge flags set. -/
def get_bounded_edges (c : Cell) : Nat :=
  c.top.toNat + c.bottom.toNat + c.left.toNat + c.right.toNat

/-- Modelled from the spec: `get_text` returns the cell's accumulated text payload. -/
def get_text (c : Cell) : String := c.text

/-- The `Table` object of `camelot/table.py`: column and row boundary lists,
the row-major cell array and the `nocont_` counter of lines that did not
contribute to setting cell edges. -/
structure Table where
  cols : List (ℚ × ℚ)
  rows : List (ℚ × ℚ)
  cells : List (List Cell)
  nocont_ : Nat
deriving DecidableEq

/-- `Table.__init__`: `cells = [[Cell(c[0], r[1], c[1], r[0]) for c in cols] for r in rows]`
and `nocont_ = 0`. -/
def Table.init (cols rows : List (ℚ × ℚ)) : Table :=
  ⟨cols, rows, rows.map (fun r => cols.map (fun c => Cell.init c.1 r.2 c.2 r.1)), 0⟩

/-- A detected line segment: the 4-tuple the Python code indexes as
`v[0], v[1], v[2], v[3]`. -/
structure Segment where
  c0 : ℚ
  c1 : ℚ
  c2 : ℚ
  c3 : ℚ
deriving DecidableEq

/-- Pointwise list update at a natural index; out-of-range indices leave the
list unchanged. -/
def modifyNth (f : α → α) : Nat → List α → List α
  | _, [] => []
  | 0, a :: l => f a :: l
  | n + 1, a :: l => a :: modifyNth f n l

/-- Resolution of a Python list index against a list of length `n`: a negative
index `i` denotes position `n + i`. -/
def pyResolve (n : Nat) (i : Int) : Option Nat :=
  if i < 0 then
    if 0 ≤ i + n then some (i + n).toNat else none
  else
    if i < n then some i.toNat else none

/-- Update of `l[i]` with Python index semantics. -/
def pyModify (l : List α) (i : Int) (f : α → α) : List α :=
  match pyResolve l.length i with
  | some n => modifyNth f n l
  | none => l

/-- Update of `cells[r][c]` with Python index semantics. -/
def pyModify2 (g : List (List Cell)) (r c : Int) (f : Cell → Cell) : List (List Cell) :=
  pyModify g r (fun row => pyModify row c f)

/-- Iteration core of the `while J < K` loops of `set_edges`: `n` remaining
iterations starting at index `J`. -/
def markIter (body : Nat → α → α) : Nat → Nat → α → α
  | 0, _, g => g
  | n + 1, J, g => markIter body n (J + 1) (body J g)

/-- The `while J < K: body(J); J += 1` loop of `set_edges`. -/
def whileMark (body : Nat → α → α) (J K : Nat) (g : α) : α :=
  markIter body (K - J) J g

/-- Embeds the Python list comprehension
`[i for i, t in enumerate(l) if p(t)]`, starting enumeration at `n`. -/
def matchIdxsFrom (p : α → Bool) : Nat → List α → List Nat
  | _, [] => []
  | n, a :: l => if p a then n :: matchIdxsFrom p (n + 1) l else matchIdxsFrom p (n + 1) l

/-- `[i for i, t in enumerate(l) if p(t)]`. -/
def matchIdxs (p : α → Bool) (l : List α) : List Nat := matchIdxsFrom p 0 l

/-- Reads `cells[r][c]` (non-negative indices). -/
def gcell (g : List (List Cell)) (r c : Nat) : Option Cell :=
  (g.get? r).bind fun row => row.get? c

/-- Reads cell `(r, c)` of a table. -/
def cellAt (t : Table) (r c : Nat) : Option Cell := gcell t.cells r c

def setLeft (c : Cell) : Cell := { c with left := true }

def setRight (c : Cell) : Cell := { c with right := true }

def setTop (c : Cell) : Cell := { c with top := true }

def setBottom (c : Cell) : Cell := { c with bottom := true }

/-- One iteration of the `for v in vertical` loop of `set_edges`.
`i` collects the column indices whose `t[0]` is close to `v[0]`,
`j` the row indices close to `v[3]`, `k` the row indices close to `v[1]`.
If `j` is empty the segment only increments `nocont_`.  Otherwise the rows
`J = j[0], ..., K - 1` are marked, where `K = k[0]` if `k` is non-empty and
`K = len(rows)` otherwise; the branch on `i` decides which edges are set,
with `cells[J][I - 1]` following Python semantics (`I - 1 = -1` selects the
last column when `I = 0`). -/
def processVertical (jtol : ℚ) (t : Table) (v : Segment) : Table :=
  let i := matchIdxs (fun tc => isclose v.c0 tc.1 jtol) t.cols
  let j := matchIdxs (fun tr => isclose v.c3 tr.1 jtol) t.rows
  let k := matchIdxs (fun tr => isclose v.c1 tr.1 jtol) t.rows
  if j = [] then { t with nocont_ := t.nocont_ + 1 }
  else
    let J : Nat := j.headD 0
    let K : Nat := k.headD t.rows.length
    if i = [0] then
      { t with cells := whileMark (fun r g => pyModify2 g (r : Int) 0 setLeft) J K t.cells }
    else if i = [] then
      { t with cells :=
          (whileMark (fun r g => pyModify2 g (r : Int) ((t.cols.length : Int) - 1) setRight)
            J K t.cells) }
    else
      let I : Int := (i.headD 0 : Nat)
      { t with cells :=
          (whileMark
            (fun r g => pyModify2 (pyModify2 g (r : Int) I setLeft) (r : Int) (I - 1) setRight)
            J K t.cells) }

/-- One iteration of the `for h in horizontal` loop of `set_edges`, the
row/column-symmetric counterpart of `processVertical`:
`i` matches `h[1]` against row `t[0]`s, `j` matches `h[0]` and `k` matches
`h[2]` against column `t[0]`s, and the marked cells are `cells[I][J]`
(`cells[I - 1][J]` selecting the last row when `I = 0`). -/
def processHorizontal (jtol : ℚ) (t : Table) (h : Segment) : Table :=
  let i := matchIdxs (fun tr => isclose h.c1 tr.1 jtol) t.rows
  let j := matchIdxs (fun tc => isclose h.c0 tc.1 jtol) t.cols
  let k := matchIdxs (fun tc => isclose h.c2 tc.1 jtol) t.cols
  if j = [] then { t with nocont_ := t.nocont_ + 1 }
  else
    let J : Nat := j.headD 0
    let K : Nat := k.headD t.cols.length
    if i = [0] then
      { t with cells := whileMark (fun c g => pyModify2 g 0 (c : Int) setTop) J K t.cells }
    else if i = [] then
      { t with cells :=
          (whileMark (fun c g => pyModify2 g ((t.rows.length : Int) - 1) (c : Int) setBottom)
            J K t.cells) }
    else
      let I : Int := (i.headD 0 : Nat)
      { t with cells :=
          (whileMark
            (fun c g => pyModify2 (pyModify2 g I (c : Int) setTop) (I - 1) (c : Int) setBottom)
            J K t.cells) }

/-- `Table.set_edges(vertical, horizontal, jtol)`: process every vertical
segment, then every horizontal segment, in input order. -/
def set_edges (t : Table) (vertical horizontal : List Segment) (jtol : ℚ) : Table :=
  horizontal.foldl (processHorizontal jtol) (vertical.foldl (processVertical jtol) t)

/-- The per-cell decision of `Table.set_spanning`.  The Python loop updates
`cells[i][j]` in place from that cell's own edge flags only, so its effect
is this function applied to every cell. -/
def spanCell (c : Cell) : Cell :=
  let bound := get_bounded_edges c
  if bound = 4 then c
  else if bound = 3 then
    if !c.left then
      if c.right && c.top && c.bottom then { c with spanning_h := true } else c
    else if !c.right then
      if c.left && c.top && c.bottom then { c with spanning_h := true } else c
    else if !c.top then
      if c.left && c.right && c.bottom then { c with spanning_v := true } else c
    else if !c.bottom then
      if c.left && c.right && c.top then { c with spanning_v := true } else c
    else c
  else if bound = 2 then
    if c.left && c.right then
      if !c.top && !c.bottom then { c with spanning_v := true } else c
    else if c.top && c.bottom then
      if !c.left && !c.right then { c with spanning_h := true } else c
    else c
  else c

/-- `Table.set_spanning()`. -/
def set_spanning (t : Table) : Table :=
  { t with cells := t.cells.map (fun row => row.map spanCell) }

/-- `Table.get_list()`: the row-major array of each cell's text, stripped of
surrounding whitespace (`.strip()` is embedded as `String.trim`). -/
def get_list (t : Table) : List (List String) :=
  t.cells.map (fun row => row.map (fun c => (get_text c).trim))

/-- Modelled from the spec: the upstream text-assignment collaborator
accumulates a text payload on each cell; `withTexts f` installs `f r c` as
the payload of cell `(r, c)`. -/
def withTexts (f : Nat → Nat → String) (t : Table) : Table :=
  { t with cells :=
      (t.cells.enum.map (fun p => p.2.enum.map (fun q => { q.2 with text := f p.1 q.1 }))) }

/-- A `pyModify2` update at Python indices `(r, c)` touches the (existing)
position `(a, b)`. -/
def touches (g : List (List Cell)) (r c : Int) (a b : Nat) : Prop :=
  pyResolve g.length r = some a ∧
    ∃ row, g.get? a = some row ∧ pyResolve row.length c = some b

/-- Edge-flag ordering on cells: every flag set in `c` is set in `c'`. -/
def CellLe (c c' : Cell) : Prop :=
  (c.left = true → c'.left = true) ∧ (c.right = true → c'.right = true) ∧
    (c.top = true → c'.top = true) ∧ (c.bottom = true → c'.bottom = true)

/-- `CellLe` lifted to `Option`, requiring equal someness. -/
def OCellLe : Option Cell → Option Cell → Prop
  | none, none => True
  | some c, some c' => CellLe c c'
  | _, _ => False

/-- Pointwise edge-flag ordering on cell grids. -/
def GridLe (g g' : List (List Cell)) : Prop :=
  ∀ a b, OCellLe (gcell g a b) (gcell g' a b)

/-- What one `set_edges` processing step preserves and guarantees: the
boundary lists are unchanged, the cell array keeps its shape, and edge
flags only ever become `true`. -/
def TStep (t t' : Table) : Prop :=
  t'.cols = t.cols ∧ t'.rows = t.rows ∧
    t'.cells.map List.length = t.cells.map List.length ∧ GridLe t.cells t'.cells

/-- Well-formedness: one row of cells per row boundary, one cell per column
boundary in every row (true of every constructed table). -/
def Wf (t : Table) : Prop :=
  t.cells.map List.length = List.replicate t.rows.length t.cols.length

/-- A projection of the cell at `(a, b)` is set. -/
def flagAt (prj : Cell → Bool) (g : List (List Cell)) (a b : Nat) : Prop :=
  ∃ c, gcell g a b = some c ∧ prj c = true

/-- All fields of `c'` except possibly the `left` flag agree with `c`. -/
def EqButLeft (c c' : Cell) : Prop :=
  c'.right = c.right ∧ c'.top = c.top ∧ c'.bottom = c.bottom ∧
    c'.spanning_h = c.spanning_h ∧ c'.spanning_v = c.spanning_v ∧
    c'.x1 = c.x1 ∧ c'.y1 = c.y1 ∧ c'.x2 = c.x2 ∧ c'.y2 = c.y2 ∧ c'.text = c.text

/-- `EqButLeft` lifted to `Option`, requiring equal someness. -/
def OEqButLeft : Option Cell → Option Cell → Prop
  | none, none => True
  | some c, some c' => EqButLeft c c'
  | _, _ => False

/-- Pointwise `EqButLeft` on whole grids. -/
def GEqButLeft (g g' : List (List Cell)) : Prop :=
  ∀ a b, OEqButLeft (gcell g a b) (gcell g' a b)

/-- The end-to-end 2×2 example of the spec: grid from
`cols = [(0,5),(5,10)]`, `rows = [(10,5),(5,0)]`, with an arbitrary upstream
text assignment `f`, edge assignment from the three full-height vertical lines
at `x = 0, 5, 10` and the three full-width horizontal lines at `y = 0, 5, 10`
(tolerance 2), then spanning inference. -/
def pipeline2x2 (f : Nat → Nat → String) : Table :=
  set_spanning (set_edges (withTexts f (Table.init [(0,5),(5,10)] [(10,5),(5,0)]))
    [Segment.mk 0 0 0 10, Segment.mk 5 0 5 10, Segment.mk 10 0 10 10]
    [Segment.mk 0 0 10 0, Segment.mk 0 5 10 5, Segment.mk 0 10 10 10] 2)

/-- A cell with its text payload erased. -/
def eraseText (c : Cell) : Cell := { c with text := "" }

/-- Re-mapping every cell of a table. -/
def tmap (e : Cell → Cell) (t : Table) : Table :=
  { t with cells := t.cells.map (List.map e) }

/-- The row-major array of trimmed cell texts of a grid. -/
def textRows (g : List (List Cell)) : List (List String) :=
  g.map (fun row => row.map (fun c => (get_text c).trim))

/-- The closed end-to-end pipeline (no texts assigned). -/
def grid2x2exact : Table :=
  set_spanning (set_edges (Table.init [(0,5),(5,10)] [(10,5),(5,0)])
    [Segment.mk 0 0 0 10, Segment.mk 5 0 5 10, Segment.mk 10 0 10 10]
    [Segment.mk 0 0 10 0, Segment.mk 0 5 10 5, Segment.mk 0 10 10 10] 2)

/-! ### Theorems -/

theorem qadd_eq (a b : ℚ) : qadd a b = a + b := (Rat.add_def' a b).symm

theorem qsub_eq (a b : ℚ) : qsub a b = a - b := (Rat.sub_def' a b).symm

theorem qmul_eq (a b : ℚ) : qmul a b = a * b := by
  rw [qmul, Rat.mul_def, Rat.normalize_eq_mkRat]

theorem qle_iff (a b : ℚ) : qle a b = true ↔ a ≤ b := by
  rw [qle, decide_eq_true_iff]
  exact Rat.le_def.symm

theorem qlt_iff (a b : ℚ) : qlt a b = true ↔ a < b := by
  rw [qlt, decide_eq_true_iff]
  exact Rat.lt_def.symm

theorem qabs_eq (a : ℚ) : qabs a = |a| := by
  rw [qabs]
  by_cases h : a < 0
  · rw [if_pos ((qlt_iff a 0).mpr h), abs_of_neg h]
    rfl
  · rw [if_neg (fun hq => h ((qlt_iff a 0).mp hq)), abs_of_nonneg (not_lt.mp h)]

theorem isclose_iff (a b atol : ℚ) : isclose a b atol = true ↔ |a - b| ≤ atol + rtol * |b| := by
  rw [isclose, qsub_eq, qabs_eq, qabs_eq, qmul_eq, qadd_eq, qle_iff]

theorem length_modifyNth (f : α → α) : ∀ (n : Nat) (l : List α),
    (modifyNth f n l).length = l.length
  | n, [] => by cases n <;> rfl
  | 0, _ :: _ => rfl
  | n + 1, _ :: l => congrArg Nat.succ (length_modifyNth f n l)

theorem get?_modifyNth (f : α → α) : ∀ (n : Nat) (l : List α) (m : Nat),
    (modifyNth f n l).get? m = if m = n then (l.get? m).map f else l.get? m := by
  intro n l
  induction l generalizing n with
  | nil => intro m; cases n <;> cases m <;> simp [modifyNth]
  | cons a l ih =>
    intro m
    cases n with
    | zero => cases m <;> simp [modifyNth]
    | succ n =>
      cases m with
      | zero => simp [modifyNth]
      | succ m => simpa [modifyNth] using ih n m

theorem pyResolve_lt {n : Nat} {i : Int} {m : Nat} (h : pyResolve n i = some m) : m < n := by
  rw [pyResolve] at h
  split at h
  · split at h
    · simp only [Option.some.injEq] at h
      omega
    · cases h
  · split at h
    · simp only [Option.some.injEq] at h
      omega
    · cases h

theorem pyResolve_coe {n m : Nat} (h : m < n) : pyResolve n (m : Int) = some m := by
  rw [pyResolve]
  rw [if_neg (by omega), if_pos (by exact_mod_cast h)]
  simp

theorem length_pyModify (l : List α) (i : Int) (f : α → α) :
    (pyModify l i f).length = l.length := by
  rw [pyModify]
  split
  · exact length_modifyNth ..
  · rfl

theorem get?_pyModify (l : List α) (i : Int) (f : α → α) (m : Nat) :
    (pyModify l i f).get? m =
      if pyResolve l.length i = some m then (l.get? m).map f else l.get? m := by
  rw [pyModify]
  split
  · next n hn =>
    rw [get?_modifyNth, hn]
    by_cases hm : m = n
    · rw [if_pos hm, if_pos (by rw [hm])]
    · rw [if_neg hm, if_neg (fun h => hm (Option.some.inj h).symm)]
  · next hn => rw [hn, if_neg (by simp)]

theorem gcell_pyModify2_touch {g : List (List Cell)} {r c : Int} {a b : Nat}
    (f : Cell → Cell) (h : touches g r c a b) :
    gcell (pyModify2 g r c f) a b = (gcell g a b).map f := by
  obtain ⟨hr, row, hrow, hc⟩ := h
  rw [pyModify2, gcell, get?_pyModify, if_pos hr, hrow, gcell, hrow]
  simp only [Option.map_some', Option.some_bind]
  rw [get?_pyModify, if_pos hc]

theorem gcell_pyModify2_miss {g : List (List Cell)} {r c : Int} {a b : Nat}
    (f : Cell → Cell) (h : ¬ touches g r c a b) :
    gcell (pyModify2 g r c f) a b = gcell g a b := by
  rw [pyModify2, gcell, get?_pyModify, gcell]
  by_cases hr : pyResolve g.length r = some a
  · rw [if_pos hr]
    cases hrow : g.get? a with
    | none => rfl
    | some row =>
      simp only [Option.map_some', Option.some_bind]
      rw [get?_pyModify]
      rw [if_neg (fun hc => h ⟨hr, row, hrow, hc⟩)]
  · rw [if_neg hr]

theorem shape_pyModify2 (g : List (List Cell)) (r c : Int) (f : Cell → Cell) :
    (pyModify2 g r c f).map List.length = g.map List.length := by
  apply List.ext
  intro n
  rw [List.get?_map, List.get?_map, pyModify2, get?_pyModify]
  split
  · cases h : g.get? n <;> simp [length_pyModify]
  · rfl

theorem gcell_isSome_shape {g g' : List (List Cell)}
    (h : g'.map List.length = g.map List.length) (a b : Nat) {cell : Cell}
    (hc : gcell g a b = some cell) : ∃ cell', gcell g' a b = some cell' := by
  rw [gcell] at hc ⊢
  cases hrow : g.get? a with
  | none => rw [hrow] at hc; exact absurd hc (by simp)
  | some row =>
    rw [hrow] at hc
    simp only [Option.some_bind] at hc
    have hlen : (g'.get? a).map List.length = some row.length := by
      rw [← List.get?_map, h, List.get?_map, hrow]
      rfl
    cases hrow' : g'.get? a with
    | none => rw [hrow'] at hlen; exact absurd hlen (by simp)
    | some row' =>
      rw [hrow'] at hlen
      simp only [Option.map_some', Option.some.injEq] at hlen
      simp only [Option.some_bind]
      have hb : b < row.length := List.get?_eq_some.mp hc |>.1
      cases hx : row'.get? b with
      | none => exact absurd (List.get?_eq_none.mp hx) (by omega)
      | some cell' => exact ⟨cell', rfl⟩

theorem cellLe_refl (c : Cell) : CellLe c c := ⟨id, id, id, id⟩

theorem cellLe_trans {a b c : Cell} (h1 : CellLe a b) (h2 : CellLe b c) : CellLe a c :=
  ⟨fun h => h2.1 (h1.1 h), fun h => h2.2.1 (h1.2.1 h), fun h => h2.2.2.1 (h1.2.2.1 h),
    fun h => h2.2.2.2 (h1.2.2.2 h)⟩

theorem OcellLe_refl : ∀ o : Option Cell, OCellLe o o
  | none => trivial
  | some c => cellLe_refl c

theorem OcellLe_trans {o1 o2 o3 : Option Cell} (h1 : OCellLe o1 o2) (h2 : OCellLe o2 o3) :
    OCellLe o1 o3 := by
  cases o1 <;> cases o2 <;> cases o3 <;>
    first
      | trivial
      | exact h1.elim
      | exact h2.elim
      | exact cellLe_trans h1 h2

theorem gridLe_refl (g : List (List Cell)) : GridLe g g := fun a b => OcellLe_refl _

theorem gridLe_trans {g1 g2 g3 : List (List Cell)} (h1 : GridLe g1 g2) (h2 : GridLe g2 g3) :
    GridLe g1 g3 := fun a b => OcellLe_trans (h1 a b) (h2 a b)

theorem cellLe_setLeft (c : Cell) : CellLe c (setLeft c) := ⟨fun _ => rfl, id, id, id⟩

theorem cellLe_setRight (c : Cell) : CellLe c (setRight c) := ⟨id, fun _ => rfl, id, id⟩

theorem cellLe_setTop (c : Cell) : CellLe c (setTop c) := ⟨id, id, fun _ => rfl, id⟩

theorem cellLe_setBottom (c : Cell) : CellLe c (setBottom c) := ⟨id, id, id, fun _ => rfl⟩

theorem gridLe_pyModify2 {f : Cell → Cell} (hf : ∀ x, CellLe x (f x))
    (g : List (List Cell)) (r c : Int) : GridLe g (pyModify2 g r c f) := by
  intro a b
  by_cases h : touches g r c a b
  · rw [gcell_pyModify2_touch f h]
    cases gcell g a b with
    | none => trivial
    | some cell => exact hf cell
  · rw [gcell_pyModify2_miss f h]
    exact OcellLe_refl _

theorem markIter_rel (R : α → α → Prop) (hrefl : ∀ g, R g g)
    (htrans : ∀ {x y z : α}, R x y → R y z → R x z)
    (body : Nat → α → α) (hbody : ∀ r g, R g (body r g)) :
    ∀ (n J : Nat) (g : α), R g (markIter body n J g)
  | 0, _, g => hrefl g
  | n + 1, J, g =>
    htrans (hbody J g) (markIter_rel R hrefl htrans body hbody n (J + 1) (body J g))

theorem markIter_pres (P : α → Prop) (body : Nat → α → α)
    (hpres : ∀ s g, P g → P (body s g)) :
    ∀ (n J : Nat) (g : α), P g → P (markIter body n J g)
  | 0, _, _, hp => hp
  | n + 1, J, g, hp => markIter_pres P body hpres n (J + 1) (body J g) (hpres J g hp)

theorem shape_markIter (body : Nat → List (List Cell) → List (List Cell))
    (hbody : ∀ s g, (body s g).map List.length = g.map List.length) :
    ∀ (n J : Nat) (g : List (List Cell)),
      (markIter body n J g).map List.length = g.map List.length
  | 0, _, _ => rfl
  | n + 1, J, g =>
    (shape_markIter body hbody n (J + 1) (body J g)).trans (hbody J g)

theorem markIter_estab (P Q : α → Prop) (body : Nat → α → α) (r : Nat)
    (hQ : ∀ s g, Q g → Q (body s g))
    (hest : ∀ g, Q g → P (body r g))
    (hpres : ∀ s g, P g → P (body s g)) :
    ∀ (n J : Nat) (g : α), Q g → J ≤ r → r < J + n → P (markIter body n J g) := by
  intro n
  induction n with
  | zero => intro J g _ h1 h2; omega
  | succ n ih =>
    intro J g hq h1 h2
    rw [markIter]
    by_cases hr : r = J
    · subst hr
      exact markIter_pres P body hpres n (r + 1) (body r g) (hest g hq)
    · exact ih (J + 1) (body J g) (hQ J g hq) (by omega) (by omega)

theorem markIter_gcell_eq (body : Nat → List (List Cell) → List (List Cell)) (a b : Nat) :
    ∀ (n J : Nat) (g : List (List Cell)),
      (∀ s g', J ≤ s → s < J + n → gcell (body s g') a b = gcell g' a b) →
      gcell (markIter body n J g) a b = gcell g a b := by
  intro n
  induction n with
  | zero => intro J g _; rfl
  | succ n ih =>
    intro J g h
    rw [markIter]
    rw [ih (J + 1) (body J g) (fun s g' hs1 hs2 => h s g' (by omega) (by omega))]
    exact h J g (by omega) (by omega)

theorem matchIdxsFrom_mem_lt (p : α → Bool) :
    ∀ (n : Nat) (l : List α), ∀ x ∈ matchIdxsFrom p n l, x < n + l.length := by
  intro n l
  induction l generalizing n with
  | nil => intro x hx; cases hx
  | cons a l ih =>
    intro x hx
    rw [matchIdxsFrom] at hx
    split at hx
    · cases hx with
      | head => simp
      | tail _ h =>
        have := ih (n + 1) x h
        simp only [List.length_cons]
        omega
    · have := ih (n + 1) x hx
      simp only [List.length_cons]
      omega

theorem head?_mem {l : List α} {a : α} (h : l.head? = some a) : a ∈ l := by
  cases l with
  | nil => cases h
  | cons b l =>
    rw [List.head?_cons, Option.some.injEq] at h
    exact h ▸ List.mem_cons_self b l

theorem matchIdxs_head_lt {p : α → Bool} {l : List α} {x : Nat}
    (h : (matchIdxs p l).head? = some x) : x < l.length := by
  simpa using matchIdxsFrom_mem_lt p 0 l x (head?_mem h)

theorem matchIdxs_headD_le {p : α → Bool} (l : List α) :
    (matchIdxs p l).headD l.length ≤ l.length := by
  cases hm : matchIdxs p l with
  | nil => simp
  | cons x tl =>
    have : x < l.length := matchIdxs_head_lt (by rw [hm]; rfl)
    simpa using Nat.le_of_lt this

theorem tstep_refl (t : Table) : TStep t t := ⟨rfl, rfl, rfl, gridLe_refl _⟩

theorem tstep_trans {t1 t2 t3 : Table} (h1 : TStep t1 t2) (h2 : TStep t2 t3) : TStep t1 t3 :=
  ⟨h2.1.trans h1.1, h2.2.1.trans h1.2.1, h2.2.2.1.trans h1.2.2.1,
    gridLe_trans h1.2.2.2 h2.2.2.2⟩

theorem shape_pyModify2_pair (g : List (List Cell)) (r c r' c' : Int) (f f' : Cell → Cell) :
    (pyModify2 (pyModify2 g r c f) r' c' f').map List.length = g.map List.length :=
  (shape_pyModify2 ..).trans (shape_pyModify2 ..)

theorem gridLe_pyModify2_pair {f f' : Cell → Cell} (hf : ∀ x, CellLe x (f x))
    (hf' : ∀ x, CellLe x (f' x)) (g : List (List Cell)) (r c r' c' : Int) :
    GridLe g (pyModify2 (pyModify2 g r c f) r' c' f') :=
  gridLe_trans (gridLe_pyModify2 hf g r c) (gridLe_pyModify2 hf' _ r' c')

theorem processVertical_tstep (jtol : ℚ) (t : Table) (v : Segment) :
    TStep t (processVertical jtol t v) := by
  simp only [processVertical]
  split
  · exact ⟨rfl, rfl, rfl, gridLe_refl _⟩
  · split
    · refine ⟨rfl, rfl, ?_, ?_⟩
      · exact shape_markIter _ (fun s g => shape_pyModify2 ..) _ _ _
      · exact markIter_rel GridLe gridLe_refl gridLe_trans _
          (fun s g => gridLe_pyModify2 cellLe_setLeft g _ _) _ _ _
    · split
      · refine ⟨rfl, rfl, ?_, ?_⟩
        · exact shape_markIter _ (fun s g => shape_pyModify2 ..) _ _ _
        · exact markIter_rel GridLe gridLe_refl gridLe_trans _
            (fun s g => gridLe_pyModify2 cellLe_setRight g _ _) _ _ _
      · refine ⟨rfl, rfl, ?_, ?_⟩
        · exact shape_markIter _ (fun s g => shape_pyModify2_pair ..) _ _ _
        · exact markIter_rel GridLe gridLe_refl gridLe_trans _
            (fun s g => gridLe_pyModify2_pair cellLe_setLeft cellLe_setRight g _ _ _ _) _ _ _

theorem processHorizontal_tstep (jtol : ℚ) (t : Table) (h : Segment) :
    TStep t (processHorizontal jtol t h) := by
  simp only [processHorizontal]
  split
  · exact ⟨rfl, rfl, rfl, gridLe_refl _⟩
  · split
    · refine ⟨rfl, rfl, ?_, ?_⟩
      · exact shape_markIter _ (fun s g => shape_pyModify2 ..) _ _ _
      · exact markIter_rel GridLe gridLe_refl gridLe_trans _
          (fun s g => gridLe_pyModify2 cellLe_setTop g _ _) _ _ _
    · split
      · refine ⟨rfl, rfl, ?_, ?_⟩
        · exact shape_markIter _ (fun s g => shape_pyModify2 ..) _ _ _
        · exact markIter_rel GridLe gridLe_refl gridLe_trans _
            (fun s g => gridLe_pyModify2 cellLe_setBottom g _ _) _ _ _
      · refine ⟨rfl, rfl, ?_, ?_⟩
        · exact shape_markIter _ (fun s g => shape_pyModify2_pair ..) _ _ _
        · exact markIter_rel GridLe gridLe_refl gridLe_trans _
            (fun s g => gridLe_pyModify2_pair cellLe_setTop cellLe_setBottom g _ _ _ _) _ _ _

theorem foldl_tstep (step : Table → Segment → Table) (hstep : ∀ t s, TStep t (step t s)) :
    ∀ (l : List Segment) (t : Table), TStep t (l.foldl step t)
  | [], t => tstep_refl t
  | s :: l, t => tstep_trans (hstep t s) (foldl_tstep step hstep l (step t s))

theorem set_edges_tstep (t : Table) (vs hs : List Segment) (jtol : ℚ) :
    TStep t (set_edges t vs hs jtol) := by
  rw [set_edges]
  exact tstep_trans (foldl_tstep _ (processVertical_tstep jtol) vs t)
    (foldl_tstep _ (processHorizontal_tstep jtol) hs _)

theorem wf_init (cols rows : List (ℚ × ℚ)) : Wf (Table.init cols rows) := by
  rw [Wf, Table.init]
  simp [List.map_map, Function.comp_def, List.map_const']

theorem wf_of_tstep {t t' : Table} (hwf : Wf t) (h : TStep t t') : Wf t' := by
  rw [Wf, h.1, h.2.1, h.2.2.1]
  exact hwf

theorem grid_length_of_shape {g : List (List Cell)} {R C : Nat}
    (h : g.map List.length = List.replicate R C) : g.length = R := by
  have := congrArg List.length h
  simpa using this

theorem grid_row_of_shape {g : List (List Cell)} {R C : Nat}
    (h : g.map List.length = List.replicate R C) {a : Nat} (ha : a < R) :
    ∃ row, g.get? a = some row ∧ row.length = C := by
  have h1 : (g.map List.length).get? a = some C := by
    rw [h, List.get?_eq_getElem?, List.getElem?_replicate, if_pos ha]
  rw [List.get?_map] at h1
  cases hrow : g.get? a with
  | none => rw [hrow] at h1; cases h1
  | some row =>
    rw [hrow] at h1
    exact ⟨row, rfl, Option.some.inj h1⟩

theorem gcell_of_shape {g : List (List Cell)} {R C : Nat}
    (h : g.map List.length = List.replicate R C) {a b : Nat} (ha : a < R) (hb : b < C) :
    ∃ cell, gcell g a b = some cell := by
  obtain ⟨row, hrow, hlen⟩ := grid_row_of_shape h ha
  rw [gcell, hrow, Option.some_bind]
  cases hx : row.get? b with
  | none => exact absurd (List.get?_eq_none.mp hx) (by omega)
  | some cell => exact ⟨cell, rfl⟩

theorem pyResolve_coe_inj {n m b : Nat} (h : pyResolve n (m : Int) = some b) : b = m := by
  rw [pyResolve] at h
  rw [if_neg (by omega)] at h
  split at h
  · simp only [Option.some.injEq] at h
    omega
  · cases h

/-- A `pyModify2` at valid in-range natural indices rewrites exactly that cell. -/
theorem gcell_pyModify2_self {g : List (List Cell)} {R C : Nat}
    (hsh : g.map List.length = List.replicate R C) {r cIdx : Nat}
    (hr : r < R) (hc : cIdx < C) (f : Cell → Cell) :
    gcell (pyModify2 g (r : Int) (cIdx : Int) f) r cIdx = (gcell g r cIdx).map f := by
  obtain ⟨row, hrow, hlen⟩ := grid_row_of_shape hsh hr
  refine gcell_pyModify2_touch f ⟨?_, row, hrow, ?_⟩
  · rw [grid_length_of_shape hsh]
    exact pyResolve_coe hr
  · rw [hlen]
    exact pyResolve_coe hc

theorem gcell_pyModify2_other_row {g : List (List Cell)} {r : Nat} {c : Int} {a b : Nat}
    (hne : a ≠ r) (f : Cell → Cell) :
    gcell (pyModify2 g (r : Int) c f) a b = gcell g a b := by
  refine gcell_pyModify2_miss f (fun h => ?_)
  exact hne (pyResolve_coe_inj h.1)

theorem gcell_pyModify2_other_col {g : List (List Cell)} {r : Int} {cIdx : Nat} {a b : Nat}
    (hne : b ≠ cIdx) (f : Cell → Cell) :
    gcell (pyModify2 g r (cIdx : Int) f) a b = gcell g a b := by
  refine gcell_pyModify2_miss f (fun h => ?_)
  obtain ⟨_, row, _, hc⟩ := h
  exact hne (pyResolve_coe_inj hc)

theorem flagAt_mono {prj : Cell → Bool}
    (hm : ∀ c c', CellLe c c' → prj c = true → prj c' = true)
    {g g' : List (List Cell)} (hle : GridLe g g') {a b : Nat}
    (h : flagAt prj g a b) : flagAt prj g' a b := by
  obtain ⟨c, hc, hp⟩ := h
  have hrel := hle a b
  rw [hc] at hrel
  cases hg : gcell g' a b with
  | none => rw [hg] at hrel; exact hrel.elim
  | some c' =>
    rw [hg] at hrel
    exact ⟨c', hg, hm c c' hrel hp⟩

theorem flagAt_left_mono {g g' : List (List Cell)} (hle : GridLe g g') {a b : Nat} :
    flagAt Cell.left g a b → flagAt Cell.left g' a b :=
  flagAt_mono (fun _ _ hc => hc.1) hle

theorem flagAt_right_mono {g g' : List (List Cell)} (hle : GridLe g g') {a b : Nat} :
    flagAt Cell.right g a b → flagAt Cell.right g' a b :=
  flagAt_mono (fun _ _ hc => hc.2.1) hle

theorem processVertical_nocont_eq (jtol : ℚ) (t : Table) (v : Segment)
    (h : matchIdxs (fun tr => isclose v.c3 tr.1 jtol) t.rows = []) :
    processVertical jtol t v = { t with nocont_ := t.nocont_ + 1 } := by
  simp [processVertical, h]

theorem processVertical_left_eq (jtol : ℚ) (t : Table) (v : Segment)
    {J : Nat} {jt : List Nat}
    (hj : matchIdxs (fun tr => isclose v.c3 tr.1 jtol) t.rows = J :: jt)
    (hi : matchIdxs (fun tc => isclose v.c0 tc.1 jtol) t.cols = [0]) :
    processVertical jtol t v =
      { t with cells :=
          (whileMark (fun r g => pyModify2 g (r : Int) 0 setLeft) J
            ((matchIdxs (fun tr => isclose v.c1 tr.1 jtol) t.rows).headD t.rows.length)
            t.cells) } := by
  simp [processVertical, hj, hi]

theorem processVertical_right_eq (jtol : ℚ) (t : Table) (v : Segment)
    {J : Nat} {jt : List Nat}
    (hj : matchIdxs (fun tr => isclose v.c3 tr.1 jtol) t.rows = J :: jt)
    (hi : matchIdxs (fun tc => isclose v.c0 tc.1 jtol) t.cols = []) :
    processVertical jtol t v =
      { t with cells :=
          (whileMark
            (fun r g => pyModify2 g (r : Int) ((t.cols.length : Int) - 1) setRight) J
            ((matchIdxs (fun tr => isclose v.c1 tr.1 jtol) t.rows).headD t.rows.length)
            t.cells) } := by
  simp [processVertical, hj, hi]

theorem processVertical_interior_eq (jtol : ℚ) (t : Table) (v : Segment)
    {J i0 : Nat} {jt it : List Nat}
    (hj : matchIdxs (fun tr => isclose v.c3 tr.1 jtol) t.rows = J :: jt)
    (hi : matchIdxs (fun tc => isclose v.c0 tc.1 jtol) t.cols = i0 :: it)
    (hi0 : i0 ≠ 0) :
    processVertical jtol t v =
      { t with cells :=
          (whileMark
            (fun r g =>
              pyModify2 (pyModify2 g (r : Int) (i0 : Int) setLeft) (r : Int)
                ((i0 : Int) - 1) setRight)
            J ((matchIdxs (fun tr => isclose v.c1 tr.1 jtol) t.rows).headD t.rows.length)
            t.cells) } := by
  simp [processVertical, hj, hi, hi0]

theorem marks_left0 {R C : Nat} (hC : 0 < C) {J K : Nat} (hK : K ≤ R)
    {g : List (List Cell)} (hsh : g.map List.length = List.replicate R C)
    {r : Nat} (hr1 : J ≤ r) (hr2 : r < K) :
    flagAt Cell.left (whileMark (fun s g => pyModify2 g (s : Int) 0 setLeft) J K g) r 0 := by
  rw [whileMark]
  refine markIter_estab (fun g' => flagAt Cell.left g' r 0)
    (fun g' => g'.map List.length = List.replicate R C)
    (fun s g => pyModify2 g (s : Int) 0 setLeft) r
    (fun s g' hq => (shape_pyModify2 ..).trans hq) ?_ ?_ (K - J) J g hsh hr1 (by omega)
  · intro g' hq
    obtain ⟨cell, hcell⟩ := gcell_of_shape hq (show r < R by omega) hC
    have hself : gcell (pyModify2 g' (r : Int) ((0 : Nat) : Int) setLeft) r 0 =
        (gcell g' r 0).map setLeft := gcell_pyModify2_self hq (by omega) hC setLeft
    refine ⟨setLeft cell, ?_, rfl⟩
    rw [show ((0 : Nat) : Int) = (0 : Int) from rfl] at hself
    rw [hself, hcell]
    rfl
  · intro s g' hp
    exact flagAt_left_mono (gridLe_pyModify2 cellLe_setLeft g' _ _) hp

theorem marks_rightlast {R C : Nat} (hC : 0 < C) {J K : Nat} (hK : K ≤ R)
    {g : List (List Cell)} (hsh : g.map List.length = List.replicate R C)
    {r : Nat} (hr1 : J ≤ r) (hr2 : r < K) :
    flagAt Cell.right
      (whileMark (fun s g => pyModify2 g (s : Int) ((C : Int) - 1) setRight) J K g)
      r (C - 1) := by
  rw [whileMark]
  refine markIter_estab (fun g' => flagAt Cell.right g' r (C - 1))
    (fun g' => g'.map List.length = List.replicate R C)
    (fun s g => pyModify2 g (s : Int) ((C : Int) - 1) setRight) r
    (fun s g' hq => (shape_pyModify2 ..).trans hq) ?_ ?_ (K - J) J g hsh hr1 (by omega)
  · intro g' hq
    obtain ⟨cell, hcell⟩ := gcell_of_shape hq (show r < R by omega) (show C - 1 < C by omega)
    have hcast : (C : Int) - 1 = ((C - 1 : Nat) : Int) := by omega
    have : gcell (pyModify2 g' (r : Int) ((C - 1 : Nat) : Int) setRight) r (C - 1) =
        (gcell g' r (C - 1)).map setRight :=
      gcell_pyModify2_self hq (by omega) (by omega) setRight
    refine ⟨setRight cell, ?_, rfl⟩
    rw [hcast, this, hcell]
    rfl
  · intro s g' hp
    exact flagAt_right_mono (gridLe_pyModify2 cellLe_setRight g' _ _) hp

theorem marks_interior {R C : Nat} {i0 : Nat} (hi0 : 0 < i0) (hiC : i0 < C)
    {J K : Nat} (hK : K ≤ R)
    {g : List (List Cell)} (hsh : g.map List.length = List.replicate R C)
    {r : Nat} (hr1 : J ≤ r) (hr2 : r < K) :
    flagAt Cell.left
      (whileMark
        (fun s g =>
          pyModify2 (pyModify2 g (s : Int) (i0 : Int) setLeft) (s : Int)
            ((i0 : Int) - 1) setRight)
        J K g) r i0 ∧
    flagAt Cell.right
      (whileMark
        (fun s g =>
          pyModify2 (pyModify2 g (s : Int) (i0 : Int) setLeft) (s : Int)
            ((i0 : Int) - 1) setRight)
        J K g) r (i0 - 1) := by
  rw [whileMark]
  refine markIter_estab
    (fun g' => flagAt Cell.left g' r i0 ∧ flagAt Cell.right g' r (i0 - 1))
    (fun g' => g'.map List.length = List.replicate R C)
    (fun s g =>
      pyModify2 (pyModify2 g (s : Int) (i0 : Int) setLeft) (s : Int) ((i0 : Int) - 1) setRight) r
    (fun s g' hq => (shape_pyModify2_pair ..).trans hq) ?_ ?_ (K - J) J g hsh hr1 (by omega)
  · intro g' hq
    have hcast : (i0 : Int) - 1 = ((i0 - 1 : Nat) : Int) := by omega
    have hq1 : (pyModify2 g' (r : Int) (i0 : Int) setLeft).map List.length =
        List.replicate R C := (shape_pyModify2 ..).trans hq
    obtain ⟨cell, hcell⟩ := gcell_of_shape hq (show r < R by omega) hiC
    obtain ⟨cell2, hcell2⟩ := gcell_of_shape hq (show r < R by omega) (show i0 - 1 < C by omega)
    constructor
    · refine ⟨setLeft cell, ?_, rfl⟩
      rw [hcast, gcell_pyModify2_other_col (show i0 ≠ i0 - 1 by omega) setRight]
      rw [gcell_pyModify2_self hq (by omega) hiC setLeft, hcell]
      rfl
    · refine ⟨setRight cell2, ?_, rfl⟩
      rw [hcast, gcell_pyModify2_self hq1 (by omega) (by omega) setRight]
      rw [gcell_pyModify2_other_col (show i0 - 1 ≠ i0 by omega) setLeft, hcell2]
      rfl
  · intro s g' hp
    exact ⟨flagAt_left_mono (gridLe_pyModify2_pair cellLe_setLeft cellLe_setRight g' _ _ _ _) hp.1,
      flagAt_right_mono (gridLe_pyModify2_pair cellLe_setLeft cellLe_setRight g' _ _ _ _) hp.2⟩

theorem set_edges_flag (prj : Cell → Bool)
    (hm : ∀ c c', CellLe c c' → prj c = true → prj c' = true)
    (t : Table) {vs : List Segment} (hs : List Segment) (jtol : ℚ) {v : Segment} (hv : v ∈ vs)
    {a b : Nat}
    (hmark : ∀ t1 : Table, t1.cols = t.cols → t1.rows = t.rows → Wf t1 →
      flagAt prj (processVertical jtol t1 v).cells a b)
    (hwf : Wf t) :
    flagAt prj (set_edges t vs hs jtol).cells a b := by
  obtain ⟨pre, post, rfl⟩ := List.append_of_mem hv
  rw [set_edges, List.foldl_append, List.foldl_cons]
  have hst : TStep t (pre.foldl (processVertical jtol) t) :=
    foldl_tstep _ (processVertical_tstep jtol) pre t
  have hflag : flagAt prj
      (processVertical jtol (pre.foldl (processVertical jtol) t) v).cells a b :=
    hmark _ hst.1 hst.2.1 (wf_of_tstep hwf hst)
  have h2 : TStep (processVertical jtol (pre.foldl (processVertical jtol) t) v)
      (post.foldl (processVertical jtol)
        (processVertical jtol (pre.foldl (processVertical jtol) t) v)) :=
    foldl_tstep _ (processVertical_tstep jtol) post _
  have h3 : TStep (post.foldl (processVertical jtol)
        (processVertical jtol (pre.foldl (processVertical jtol) t) v))
      (hs.foldl (processHorizontal jtol)
        (post.foldl (processVertical jtol)
          (processVertical jtol (pre.foldl (processVertical jtol) t) v))) :=
    foldl_tstep _ (processHorizontal_tstep jtol) hs _
  exact flagAt_mono hm (gridLe_trans h2.2.2.2 h3.2.2.2) hflag

theorem eqButLeft_refl (c : Cell) : EqButLeft c c :=
  ⟨rfl, rfl, rfl, rfl, rfl, rfl, rfl, rfl, rfl, rfl⟩

theorem eqButLeft_trans {c1 c2 c3 : Cell} (h1 : EqButLeft c1 c2) (h2 : EqButLeft c2 c3) :
    EqButLeft c1 c3 :=
  ⟨h2.1.trans h1.1, h2.2.1.trans h1.2.1, h2.2.2.1.trans h1.2.2.1,
    h2.2.2.2.1.trans h1.2.2.2.1, h2.2.2.2.2.1.trans h1.2.2.2.2.1,
    h2.2.2.2.2.2.1.trans h1.2.2.2.2.2.1, h2.2.2.2.2.2.2.1.trans h1.2.2.2.2.2.2.1,
    h2.2.2.2.2.2.2.2.1.trans h1.2.2.2.2.2.2.2.1,
    h2.2.2.2.2.2.2.2.2.1.trans h1.2.2.2.2.2.2.2.2.1,
    h2.2.2.2.2.2.2.2.2.2.trans h1.2.2.2.2.2.2.2.2.2⟩

theorem OeqButLeft_refl : ∀ o : Option Cell, OEqButLeft o o
  | none => trivial
  | some c => eqButLeft_refl c

theorem OeqButLeft_trans {o1 o2 o3 : Option Cell} (h1 : OEqButLeft o1 o2)
    (h2 : OEqButLeft o2 o3) : OEqButLeft o1 o3 := by
  cases o1 <;> cases o2 <;> cases o3 <;>
    first
      | trivial
      | exact h1.elim
      | exact h2.elim
      | exact eqButLeft_trans h1 h2

theorem GeqButLeft_refl (g : List (List Cell)) : GEqButLeft g g :=
  fun _ _ => OeqButLeft_refl _

theorem GeqButLeft_trans {g1 g2 g3 : List (List Cell)} (h1 : GEqButLeft g1 g2)
    (h2 : GEqButLeft g2 g3) : GEqButLeft g1 g3 :=
  fun a b => OeqButLeft_trans (h1 a b) (h2 a b)

theorem geqButLeft_pyModify2_setLeft (g : List (List Cell)) (r c : Int) :
    GEqButLeft g (pyModify2 g r c setLeft) := by
  intro a b
  by_cases h : touches g r c a b
  · rw [gcell_pyModify2_touch setLeft h]
    cases gcell g a b with
    | none => trivial
    | some cell => exact ⟨rfl, rfl, rfl, rfl, rfl, rfl, rfl, rfl, rfl, rfl⟩
  · rw [gcell_pyModify2_miss setLeft h]
    exact OeqButLeft_refl _

theorem processVertical_nocont_noincr (jtol : ℚ) (t : Table) (v : Segment)
    (h : matchIdxs (fun tr => isclose v.c3 tr.1 jtol) t.rows ≠ []) :
    (processVertical jtol t v).nocont_ = t.nocont_ := by
  simp only [processVertical]
  rw [if_neg h]
  split
  · rfl
  · split <;> rfl

theorem processVertical_interior_flags (jtol : ℚ) (t1 : Table) (v : Segment)
    (hwf1 : Wf t1) (i0 J : Nat)
    (hi : (matchIdxs (fun tc => isclose v.c0 tc.1 jtol) t1.cols).head? = some i0)
    (hi0 : 0 < i0)
    (hJ : (matchIdxs (fun tr => isclose v.c3 tr.1 jtol) t1.rows).head? = some J)
    (r : Nat) (hr1 : J ≤ r)
    (hr2 : r < (matchIdxs (fun tr => isclose v.c1 tr.1 jtol) t1.rows).headD t1.rows.length) :
    flagAt Cell.left (processVertical jtol t1 v).cells r i0 ∧
    flagAt Cell.right (processVertical jtol t1 v).cells r (i0 - 1) := by
  cases hm : matchIdxs (fun tr => isclose v.c3 tr.1 jtol) t1.rows with
  | nil => rw [hm] at hJ; cases hJ
  | cons J' jt =>
    rw [hm, List.head?_cons, Option.some.injEq] at hJ
    subst hJ
    cases hmi : matchIdxs (fun tc => isclose v.c0 tc.1 jtol) t1.cols with
    | nil => rw [hmi] at hi; cases hi
    | cons i0' it =>
      rw [hmi, List.head?_cons, Option.some.injEq] at hi
      subst hi
      rw [processVertical_interior_eq jtol t1 v hm hmi (by omega)]
      exact marks_interior hi0 (matchIdxs_head_lt (show _ = some i0' by rw [hmi]; rfl))
        (matchIdxs_headD_le _) hwf1 hr1 hr2

theorem processVertical_right_flags (jtol : ℚ) (t1 : Table) (v : Segment)
    (hwf1 : Wf t1) (hc : t1.cols ≠ [])
    (hi : matchIdxs (fun tc => isclose v.c0 tc.1 jtol) t1.cols = [])
    (J : Nat)
    (hJ : (matchIdxs (fun tr => isclose v.c3 tr.1 jtol) t1.rows).head? = some J)
    (r : Nat) (hr1 : J ≤ r)
    (hr2 : r < (matchIdxs (fun tr => isclose v.c1 tr.1 jtol) t1.rows).headD t1.rows.length) :
    flagAt Cell.right (processVertical jtol t1 v).cells r (t1.cols.length - 1) := by
  cases hm : matchIdxs (fun tr => isclose v.c3 tr.1 jtol) t1.rows with
  | nil => rw [hm] at hJ; cases hJ
  | cons J' jt =>
    rw [hm, List.head?_cons, Option.some.injEq] at hJ
    subst hJ
    rw [processVertical_right_eq jtol t1 v hm hi]
    exact marks_rightlast (List.length_pos.mpr hc) (matchIdxs_headD_le _) hwf1 hr1 hr2

/-- C9: `set_edges` is monotone on edge flags: any cell edge flag that is true
before the call is still true after the call, for every grid state and every
vertical and horizontal input; `set_edges` never clears an edge flag. -/
theorem set_edges_monotone (t : Table) (vertical horizontal : List Segment) (jtol : ℚ)
    (r c : Nat) (cell : Cell) (h : cellAt t r c = some cell) :
    ∃ cell', cellAt (set_edges t vertical horizontal jtol) r c = some cell' ∧
      (cell.left = true → cell'.left = true) ∧ (cell.right = true → cell'.right = true) ∧
      (cell.top = true → cell'.top = true) ∧ (cell.bottom = true → cell'.bottom = true) := by
  have hst := set_edges_tstep t vertical horizontal jtol
  have hrel := hst.2.2.2 r c
  rw [cellAt] at h
  rw [h] at hrel
  cases hg : gcell (set_edges t vertical horizontal jtol).cells r c with
  | none => rw [hg] at hrel; exact hrel.elim
  | some cell' =>
    rw [hg] at hrel
    exact ⟨cell', hg, hrel⟩

/-- C9 witness at a concrete input. -/
theorem set_edges_monotone_witness :
    ∃ cell', cellAt
        (set_edges
          (Table.mk [(0,5)] [(10,5)] [[Cell.mk 0 5 5 10 true false false false false false ""]] 0)
          [] [] 2) 0 0 = some cell' ∧
      ((Cell.mk 0 5 5 10 true false false false false false "").left = true →
        cell'.left = true) ∧
      ((Cell.mk 0 5 5 10 true false false false false false "").right = true →
        cell'.right = true) ∧
      ((Cell.mk 0 5 5 10 true false false false false false "").top = true →
        cell'.top = true) ∧
      ((Cell.mk 0 5 5 10 true false false false false false "").bottom = true →
        cell'.bottom = true) :=
  set_edges_monotone _ [] [] 2 0 0 _ (by decide)

/-- C1: in `set_edges`, for a vertical segment whose first column match is an
interior column `i0`, the left edge of column `i0` and the right edge of
column `i0 - 1` are marked for every row in the affected range, which runs
from the row matched by the segment's `v[3]` endpoint down to the row matched
by its `v[1]` endpoint if that match exists, otherwise to the last row. -/
theorem set_edges_interior_divider_marks (t : Table) (vs hs : List Segment) (jtol : ℚ)
    (v : Segment) (hwf : Wf t) (hv : v ∈ vs) (i0 J : Nat)
    (hi : (matchIdxs (fun tc => isclose v.c0 tc.1 jtol) t.cols).head? = some i0)
    (hi0 : 0 < i0)
    (hJ : (matchIdxs (fun tr => isclose v.c3 tr.1 jtol) t.rows).head? = some J)
    (r : Nat) (hr1 : J ≤ r)
    (hr2 : r < (matchIdxs (fun tr => isclose v.c1 tr.1 jtol) t.rows).headD t.rows.length) :
    (∃ c1, cellAt (set_edges t vs hs jtol) r i0 = some c1 ∧ c1.left = true) ∧
    (∃ c2, cellAt (set_edges t vs hs jtol) r (i0 - 1) = some c2 ∧ c2.right = true) := by
  constructor
  · refine set_edges_flag Cell.left (fun _ _ hc => hc.1) t hs jtol hv ?_ hwf
    intro t1 hcols hrows hwf1
    refine (processVertical_interior_flags jtol t1 v hwf1 i0 J ?_ hi0 ?_ r hr1 ?_).1
    · rw [hcols]; exact hi
    · rw [hrows]; exact hJ
    · rw [hrows]; exact hr2
  · refine set_edges_flag Cell.right (fun _ _ hc => hc.2.1) t hs jtol hv ?_ hwf
    intro t1 hcols hrows hwf1
    refine (processVertical_interior_flags jtol t1 v hwf1 i0 J ?_ hi0 ?_ r hr1 ?_).2
    · rw [hcols]; exact hi
    · rw [hrows]; exact hJ
    · rw [hrows]; exact hr2

/-- C1 witness at a concrete input: a 1-row, 2-column grid with an internal
divider at `x = 5`. -/
theorem set_edges_interior_divider_marks_witness :
    (∃ c1, cellAt (set_edges (Table.init [(0,5),(5,10)] [(10,0)])
        [Segment.mk 5 0 5 10] [] 2) 0 1 = some c1 ∧ c1.left = true) ∧
    (∃ c2, cellAt (set_edges (Table.init [(0,5),(5,10)] [(10,0)])
        [Segment.mk 5 0 5 10] [] 2) 0 0 = some c2 ∧ c2.right = true) :=
  set_edges_interior_divider_marks (Table.init [(0,5),(5,10)] [(10,0)])
    [Segment.mk 5 0 5 10] [] 2 (Segment.mk 5 0 5 10) (wf_init ..)
    (List.mem_singleton.mpr rfl) 1 0 (by decide) (by decide) (by decide) 0
    (by decide) (by decide)

/-- C4: a vertical segment whose `x` matches no column is not rejected: its
processing step leaves the unmatched-segment counter unchanged, and the right
edge of the last column is marked for every affected row of the `set_edges`
result. -/
theorem set_edges_no_column_match_right_boundary (t : Table) (vs hs : List Segment)
    (jtol : ℚ) (v : Segment) (hwf : Wf t) (hv : v ∈ vs) (hc : t.cols ≠ [])
    (hi : matchIdxs (fun tc => isclose v.c0 tc.1 jtol) t.cols = [])
    (J : Nat)
    (hJ : (matchIdxs (fun tr => isclose v.c3 tr.1 jtol) t.rows).head? = some J)
    (r : Nat) (hr1 : J ≤ r)
    (hr2 : r < (matchIdxs (fun tr => isclose v.c1 tr.1 jtol) t.rows).headD t.rows.length) :
    (processVertical jtol t v).nocont_ = t.nocont_ ∧
    (∃ c1, cellAt (set_edges t vs hs jtol) r (t.cols.length - 1) = some c1 ∧
      c1.right = true) := by
  constructor
  · refine processVertical_nocont_noincr jtol t v ?_
    intro hnil
    rw [hnil] at hJ
    cases hJ
  · refine set_edges_flag Cell.right (fun _ _ hc => hc.2.1) t hs jtol hv ?_ hwf
    intro t1 hcols hrows hwf1
    have := processVertical_right_flags jtol t1 v hwf1
      (by rw [hcols]; exact hc) (by rw [hcols]; exact hi) J
      (by rw [hrows]; exact hJ) r hr1 (by rw [hrows]; exact hr2)
    rw [hcols] at this
    exact this

/-- C4 witness at a concrete input: a segment at `x = 100` matching no column
of a 1-row, 1-column grid. -/
theorem set_edges_no_column_match_right_boundary_witness :
    ((processVertical 2 (Table.init [(0,5)] [(10,0)]) (Segment.mk 100 0 100 10)).nocont_ =
      (Table.init [(0,5)] [(10,0)]).nocont_) ∧
    (∃ c1, cellAt (set_edges (Table.init [(0,5)] [(10,0)])
        [Segment.mk 100 0 100 10] [] 2) 0 ((Table.init [(0,5)] [(10,0)]).cols.length - 1) =
      some c1 ∧ c1.right = true) :=
  set_edges_no_column_match_right_boundary (Table.init [(0,5)] [(10,0)])
    [Segment.mk 100 0 100 10] [] 2 (Segment.mk 100 0 100 10) (wf_init ..)
    (List.mem_singleton.mpr rfl) (by decide) (by decide) 0 (by decide) 0
    (by decide) (by decide)

/-- C2 counterexample: a well-formed vertical segment from `y = -100` up to
`y = 10` whose lower endpoint (`v[1] = -100`) matches no row of the grid, yet
processing it does not increment the unmatched-segment counter and does set an
edge flag: the code keys the rejection test on the upper endpoint `v[3]`, not
on the lower endpoint. -/
theorem set_edges_lower_endpoint_counterexample :
    (matchIdxs (fun tr => isclose (Segment.mk 0 (-100) 0 10).c1 tr.1 2)
        (Table.init [(0,5)] [(10,5)]).rows = []) ∧
    (set_edges (Table.init [(0,5)] [(10,5)]) [Segment.mk 0 (-100) 0 10] [] 2).nocont_ = 0 ∧
    (cellAt (set_edges (Table.init [(0,5)] [(10,5)]) [Segment.mk 0 (-100) 0 10] [] 2)
        0 0).map Cell.left = some true := by
  decide

/-- C2 (amended): for every vertical segment whose upper endpoint `v[3]`
matches no row within tolerance, processing the segment increments the
unmatched-segment counter exactly once and changes nothing else (in
particular no cell edge flag). -/
theorem set_edges_unmatched_upper_endpoint (jtol : ℚ) (t : Table) (v : Segment)
    (h : matchIdxs (fun tr => isclose v.c3 tr.1 jtol) t.rows = []) :
    processVertical jtol t v = { t with nocont_ := t.nocont_ + 1 } :=
  processVertical_nocont_eq jtol t v h

/-- C2 (amended) witness at a concrete input. -/
theorem set_edges_unmatched_upper_endpoint_witness :
    processVertical 2 (Table.init [(0,5)] [(10,5)]) (Segment.mk 0 0 0 100) =
      { Table.init [(0,5)] [(10,5)] with
          nocont_ := (Table.init [(0,5)] [(10,5)]).nocont_ + 1 } :=
  set_edges_unmatched_upper_endpoint 2 (Table.init [(0,5)] [(10,5)])
    (Segment.mk 0 0 0 100) (by decide)

/-- C3 counterexample: with narrow columns `[(0,1),(1,2)]` and tolerance 2,
both columns match a segment at `x = 1/2`; the first match is column 0, yet
the right edge of column 1 (the last column, reached through Python's `-1`
index) is also marked, refuting "only the left edge of column 0 is marked". -/
theorem set_edges_first_match_zero_counterexample :
    ((matchIdxs (fun tc => isclose (Segment.mk (mkRat 1 2) 0 (mkRat 1 2) 10).c0 tc.1 2)
        (Table.init [(0,1),(1,2)] [(10,0)]).cols).head? = some 0) ∧
    (cellAt (set_edges (Table.init [(0,1),(1,2)] [(10,0)])
        [Segment.mk (mkRat 1 2) 0 (mkRat 1 2) 10] [] 2) 0 1).map Cell.right = some true := by
  decide

/-- C3 (amended): when one or more columns match a vertical segment's x within
tolerance, the first match in column order is the one used (an interior first
match marks its left edge and its left neighbour's right edge); and whenever
index 0 is the ONLY matching column, the segment is treated as the grid's left
boundary: the left edge of column 0 is marked for every affected row and the
processing step changes nothing else — no other flag or field of any cell, no
cell outside the affected range, and not the unmatched-segment counter. -/
theorem set_edges_left_boundary_only_match (jtol : ℚ) (t : Table) (v : Segment)
    (hwf : Wf t) (J : Nat)
    (hJ : (matchIdxs (fun tr => isclose v.c3 tr.1 jtol) t.rows).head? = some J) :
    (∀ i0, (matchIdxs (fun tc => isclose v.c0 tc.1 jtol) t.cols).head? = some i0 → 0 < i0 →
      ∀ r, J ≤ r →
        r < (matchIdxs (fun tr => isclose v.c1 tr.1 jtol) t.rows).headD t.rows.length →
        flagAt Cell.left (processVertical jtol t v).cells r i0 ∧
        flagAt Cell.right (processVertical jtol t v).cells r (i0 - 1)) ∧
    (matchIdxs (fun tc => isclose v.c0 tc.1 jtol) t.cols = [0] →
      (∀ r, J ≤ r →
        r < (matchIdxs (fun tr => isclose v.c1 tr.1 jtol) t.rows).headD t.rows.length →
        flagAt Cell.left (processVertical jtol t v).cells r 0) ∧
      (∀ a b, OEqButLeft (cellAt t a b) (cellAt (processVertical jtol t v) a b)) ∧
      (∀ a b, (b ≠ 0 ∨ a < J ∨
          (matchIdxs (fun tr => isclose v.c1 tr.1 jtol) t.rows).headD t.rows.length ≤ a) →
        cellAt (processVertical jtol t v) a b = cellAt t a b) ∧
      (processVertical jtol t v).nocont_ = t.nocont_) := by
  constructor
  · intro i0 hi hi0 r hr1 hr2
    exact processVertical_interior_flags jtol t v hwf i0 J hi hi0 hJ r hr1 hr2
  · intro hi
    cases hm : matchIdxs (fun tr => isclose v.c3 tr.1 jtol) t.rows with
    | nil => rw [hm] at hJ; cases hJ
    | cons J' jt =>
      rw [hm, List.head?_cons, Option.some.injEq] at hJ
      subst hJ
      rw [processVertical_left_eq jtol t v hm hi]
      have hC : 0 < t.cols.length :=
        matchIdxs_head_lt (show _ = some 0 by rw [hi]; rfl)
      refine ⟨?_, ?_, ?_, rfl⟩
      · intro r hr1 hr2
        exact marks_left0 hC (matchIdxs_headD_le _) hwf hr1 hr2
      · intro a b
        exact markIter_rel GEqButLeft GeqButLeft_refl GeqButLeft_trans _
          (fun s g => geqButLeft_pyModify2_setLeft g (s : Int) 0) _ _ t.cells a b
      · intro a b hcond
        rw [cellAt, cellAt]
        show gcell (whileMark _ _ _ t.cells) a b = gcell t.cells a b
        rw [whileMark]
        refine markIter_gcell_eq _ a b _ _ t.cells ?_
        intro s g' hs1 hs2
        rcases hcond with hb | hcond2
        · exact @gcell_pyModify2_other_col g' (s : Int) 0 a b hb setLeft
        · exact gcell_pyModify2_other_row (show a ≠ s by omega) _

/-- C3 (amended) witness at a concrete input: a 1×1 grid whose single column
is the only match of a segment at `x = 0`. -/
theorem set_edges_left_boundary_only_match_witness :
    flagAt Cell.left
      (processVertical 2 (Table.init [(0,5)] [(10,0)]) (Segment.mk 0 0 0 10)).cells 0 0 ∧
    (processVertical 2 (Table.init [(0,5)] [(10,0)]) (Segment.mk 0 0 0 10)).nocont_ =
      (Table.init [(0,5)] [(10,0)]).nocont_ :=
  have h := set_edges_left_boundary_only_match 2 (Table.init [(0,5)] [(10,0)])
    (Segment.mk 0 0 0 10) (wf_init ..) 0 (by decide)
  ⟨((h.2 (by decide)).1 0 (by decide) (by decide)), (h.2 (by decide)).2.2.2⟩

theorem spanCell_frame (c : Cell) :
    (spanCell c).left = c.left ∧ (spanCell c).right = c.right ∧ (spanCell c).top = c.top ∧
    (spanCell c).bottom = c.bottom ∧ (spanCell c).x1 = c.x1 ∧ (spanCell c).y1 = c.y1 ∧
    (spanCell c).x2 = c.x2 ∧ (spanCell c).y2 = c.y2 ∧ (spanCell c).text = c.text := by
  rcases c with ⟨x1, y1, x2, y2, l, r, tp, b, sh, sv, tx⟩
  cases l <;> cases r <;> cases tp <;> cases b <;>
    exact ⟨rfl, rfl, rfl, rfl, rfl, rfl, rfl, rfl, rfl⟩

theorem spanCell_idem (c : Cell) : spanCell (spanCell c) = spanCell c := by
  rcases c with ⟨x1, y1, x2, y2, l, r, tp, b, sh, sv, tx⟩
  cases l <;> cases r <;> cases tp <;> cases b <;> rfl

theorem cellAt_set_spanning (t : Table) (r c : Nat) :
    cellAt (set_spanning t) r c = (cellAt t r c).map spanCell := by
  rw [cellAt, cellAt, set_spanning]
  show gcell (t.cells.map (fun row => row.map spanCell)) r c = _
  rw [gcell, gcell, List.get?_map]
  cases t.cells.get? r with
  | none => rfl
  | some row =>
    simp only [Option.map_some', Option.some_bind]
    rw [List.get?_map]

theorem spanCell_bound2 (cell : Cell) (hb : get_bounded_edges cell = 2) :
    (cell.left = true ∧ cell.right = true → (spanCell cell).spanning_v = true) ∧
    (cell.top = true ∧ cell.bottom = true → (spanCell cell).spanning_h = true) ∧
    (¬(cell.left = true ∧ cell.right = true) ∧ ¬(cell.top = true ∧ cell.bottom = true) →
      (spanCell cell).spanning_h = cell.spanning_h ∧
      (spanCell cell).spanning_v = cell.spanning_v) := by
  rcases cell with ⟨x1, y1, x2, y2, l, r, tp, b, sh, sv, tx⟩
  cases l <;> cases r <;> cases tp <;> cases b <;> simp_all [spanCell, get_bounded_edges]

theorem spanCell_bound3 (cell : Cell) (hb : get_bounded_edges cell = 3) :
    ((cell.left = false ∨ cell.right = false) → (spanCell cell).spanning_h = true) ∧
    ((cell.top = false ∨ cell.bottom = false) → (spanCell cell).spanning_v = true) := by
  rcases cell with ⟨x1, y1, x2, y2, l, r, tp, b, sh, sv, tx⟩
  cases l <;> cases r <;> cases tp <;> cases b <;> simp_all [spanCell, get_bounded_edges]

theorem spanCell_bound014 (cell : Cell)
    (hb : get_bounded_edges cell = 0 ∨ get_bounded_edges cell = 1 ∨
      get_bounded_edges cell = 4) :
    (spanCell cell).spanning_h = cell.spanning_h ∧
    (spanCell cell).spanning_v = cell.spanning_v := by
  rcases cell with ⟨x1, y1, x2, y2, l, r, tp, b, sh, sv, tx⟩
  cases l <;> cases r <;> cases tp <;> cases b <;> simp_all [spanCell, get_bounded_edges]

/-- C5: for every cell with exactly two edge flags set, `set_spanning` sets the
vertical-span flag when the present pair is left+right, the horizontal-span
flag when the present pair is top+bottom, and neither span flag when the
present pair is adjacent. -/
theorem set_spanning_two_edges (t : Table) (r c : Nat) (cell : Cell)
    (h : cellAt t r c = some cell) (hb : get_bounded_edges cell = 2) :
    ∃ cell', cellAt (set_spanning t) r c = some cell' ∧
      (cell.left = true ∧ cell.right = true → cell'.spanning_v = true) ∧
      (cell.top = true ∧ cell.bottom = true → cell'.spanning_h = true) ∧
      (¬(cell.left = true ∧ cell.right = true) ∧ ¬(cell.top = true ∧ cell.bottom = true) →
        cell'.spanning_h = cell.spanning_h ∧ cell'.spanning_v = cell.spanning_v) := by
  have hsp := spanCell_bound2 cell hb
  refine ⟨spanCell cell, ?_, hsp.1, hsp.2.1, hsp.2.2⟩
  rw [cellAt_set_spanning, h]
  rfl

/-- C5 witness at a concrete input: a single cell with left+right present. -/
theorem set_spanning_two_edges_witness :
    ∃ cell', cellAt (set_spanning
        (Table.mk [(0,5)] [(10,5)] [[Cell.mk 0 5 5 10 true true false false false false ""]] 0))
        0 0 = some cell' ∧
      ((Cell.mk 0 5 5 10 true true false false false false "").left = true ∧
        (Cell.mk 0 5 5 10 true true false false false false "").right = true →
        cell'.spanning_v = true) ∧
      ((Cell.mk 0 5 5 10 true true false false false false "").top = true ∧
        (Cell.mk 0 5 5 10 true true false false false false "").bottom = true →
        cell'.spanning_h = true) ∧
      (¬((Cell.mk 0 5 5 10 true true false false false false "").left = true ∧
          (Cell.mk 0 5 5 10 true true false false false false "").right = true) ∧
        ¬((Cell.mk 0 5 5 10 true true false false false false "").top = true ∧
          (Cell.mk 0 5 5 10 true true false false false false "").bottom = true) →
        cell'.spanning_h = (Cell.mk 0 5 5 10 true true false false false false "").spanning_h ∧
        cell'.spanning_v = (Cell.mk 0 5 5 10 true true false false false false "").spanning_v) :=
  set_spanning_two_edges
    (Table.mk [(0,5)] [(10,5)] [[Cell.mk 0 5 5 10 true true false false false false ""]] 0)
    0 0 (Cell.mk 0 5 5 10 true true false false false false "") (by decide) (by decide)

/-- C6: for every cell, `set_spanning` with bounded-edge count 3 sets the
horizontal-span flag when left or right is the missing edge and the
vertical-span flag when top or bottom is the missing edge; with bounded-edge
count 0, 1 or 4 it sets no span flag on that cell. -/
theorem set_spanning_bound3_and_low (t : Table) (r c : Nat) (cell : Cell)
    (h : cellAt t r c = some cell) :
    ∃ cell', cellAt (set_spanning t) r c = some cell' ∧
      (get_bounded_edges cell = 3 →
        ((cell.left = false ∨ cell.right = false) → cell'.spanning_h = true) ∧
        ((cell.top = false ∨ cell.bottom = false) → cell'.spanning_v = true)) ∧
      (get_bounded_edges cell = 0 ∨ get_bounded_edges cell = 1 ∨
          get_bounded_edges cell = 4 →
        cell'.spanning_h = cell.spanning_h ∧ cell'.spanning_v = cell.spanning_v) := by
  refine ⟨spanCell cell, ?_, fun hb => spanCell_bound3 cell hb,
    fun hb => spanCell_bound014 cell hb⟩
  rw [cellAt_set_spanning, h]
  rfl

/-- C6 witness at a concrete input: a single cell with the bottom edge missing. -/
theorem set_spanning_bound3_and_low_witness :
    ∃ cell', cellAt (set_spanning
        (Table.mk [(0,5)] [(10,5)] [[Cell.mk 0 5 5 10 true true true false false false ""]] 0))
        0 0 = some cell' ∧
      (get_bounded_edges (Cell.mk 0 5 5 10 true true true false false false "") = 3 →
        (((Cell.mk 0 5 5 10 true true true false false false "").left = false ∨
            (Cell.mk 0 5 5 10 true true true false false false "").right = false) →
          cell'.spanning_h = true) ∧
        (((Cell.mk 0 5 5 10 true true true false false false "").top = false ∨
            (Cell.mk 0 5 5 10 true true true false false false "").bottom = false) →
          cell'.spanning_v = true)) ∧
      (get_bounded_edges (Cell.mk 0 5 5 10 true true true false false false "") = 0 ∨
          get_bounded_edges (Cell.mk 0 5 5 10 true true true false false false "") = 1 ∨
          get_bounded_edges (Cell.mk 0 5 5 10 true true true false false false "") = 4 →
        cell'.spanning_h =
          (Cell.mk 0 5 5 10 true true true false false false "").spanning_h ∧
        cell'.spanning_v =
          (Cell.mk 0 5 5 10 true true true false false false "").spanning_v) :=
  set_spanning_bound3_and_low
    (Table.mk [(0,5)] [(10,5)] [[Cell.mk 0 5 5 10 true true true false false false ""]] 0)
    0 0 (Cell.mk 0 5 5 10 true true true false false false "") (by decide)

/-- C10: `set_spanning` is idempotent and frame-limited: it writes only the two
span flags of cells, leaving every edge flag, the cell geometry and text, the
boundary lists, the unmatched-segment counter and the grid dimensions
unchanged, and applying it twice equals applying it once. -/
theorem set_spanning_idem_frame (t : Table) :
    set_spanning (set_spanning t) = set_spanning t ∧
    (set_spanning t).cols = t.cols ∧ (set_spanning t).rows = t.rows ∧
    (set_spanning t).nocont_ = t.nocont_ ∧
    (set_spanning t).cells.length = t.cells.length ∧
    (∀ r c, cellAt (set_spanning t) r c = (cellAt t r c).map spanCell) ∧
    (∀ cell : Cell, (spanCell cell).left = cell.left ∧ (spanCell cell).right = cell.right ∧
      (spanCell cell).top = cell.top ∧ (spanCell cell).bottom = cell.bottom ∧
      (spanCell cell).x1 = cell.x1 ∧ (spanCell cell).y1 = cell.y1 ∧
      (spanCell cell).x2 = cell.x2 ∧ (spanCell cell).y2 = cell.y2 ∧
      (spanCell cell).text = cell.text) := by
  refine ⟨?_, rfl, rfl, rfl, by simp [set_spanning], cellAt_set_spanning t, spanCell_frame⟩
  simp [set_spanning, List.map_map, Function.comp_def, spanCell_idem]

/-- C7: `Table` construction produces a row-major `len(rows) × len(cols)` cell
array where `cells[r][c]` is the rectangle with left-x `cols[c][0]`, bottom-y
`rows[r][1]`, right-x `cols[c][1]`, top-y `rows[r][0]`, all flags unset, and
the unmatched-segment counter starts at 0. -/
theorem table_init_spec (cols rows : List (ℚ × ℚ)) (h1 : cols ≠ []) (h2 : rows ≠ []) :
    (Table.init cols rows).nocont_ = 0 ∧
    (Table.init cols rows).cells.length = rows.length ∧
    (∀ row ∈ (Table.init cols rows).cells, row.length = cols.length) ∧
    (∀ r c rr cc, rows.get? r = some rr → cols.get? c = some cc →
      cellAt (Table.init cols rows) r c =
        some (Cell.mk cc.1 rr.2 cc.2 rr.1 false false false false false false "")) := by
  refine ⟨rfl, by simp [Table.init], ?_, ?_⟩
  · intro row hrow
    rw [Table.init] at hrow
    simp only [List.mem_map] at hrow
    obtain ⟨rr, _, hrr⟩ := hrow
    rw [← hrr]
    simp
  · intro r c rr cc hr hc
    rw [cellAt, Table.init]
    show gcell (rows.map fun rr => cols.map fun cc => Cell.init cc.1 rr.2 cc.2 rr.1) r c = _
    rw [gcell, List.get?_map, hr]
    simp only [Option.map_some', Option.some_bind]
    rw [List.get?_map, hc]
    rfl

/-- C7 witness at a concrete input. -/
theorem table_init_spec_witness :
    (Table.init [(0,5)] [(10,5)]).nocont_ = 0 ∧
    (Table.init [(0,5)] [(10,5)]).cells.length = [((10 : ℚ), (5 : ℚ))].length ∧
    (∀ row ∈ (Table.init [(0,5)] [(10,5)]).cells, row.length = [((0 : ℚ), (5 : ℚ))].length) ∧
    (∀ r c rr cc, [((10 : ℚ), (5 : ℚ))].get? r = some rr →
      [((0 : ℚ), (5 : ℚ))].get? c = some cc →
      cellAt (Table.init [(0,5)] [(10,5)]) r c =
        some (Cell.mk cc.1 rr.2 cc.2 rr.1 false false false false false false "")) :=
  table_init_spec [(0,5)] [(10,5)] (by decide) (by decide)

theorem modifyNth_id : ∀ (n : Nat) (l : List α), modifyNth (fun x => x) n l = l
  | n, [] => by cases n <;> rfl
  | 0, _ :: _ => rfl
  | n + 1, a :: l => congrArg (a :: ·) (modifyNth_id n l)

theorem pyModify_id (l : List α) (i : Int) : pyModify l i (fun x => x) = l := by
  rw [pyModify]
  split
  · exact modifyNth_id ..
  · rfl

theorem map_modifyNth (h : α → β) (u : α → α) (u' : β → β)
    (hc : ∀ x, h (u x) = u' (h x)) : ∀ (n : Nat) (l : List α),
    (modifyNth u n l).map h = modifyNth u' n (l.map h)
  | n, [] => by cases n <;> rfl
  | 0, a :: l => by simp [modifyNth, hc a]
  | n + 1, a :: l => by simp [modifyNth, map_modifyNth h u u' hc n l]

theorem map_pyModify (h : α → β) (u : α → α) (u' : β → β)
    (hc : ∀ x, h (u x) = u' (h x)) (l : List α) (i : Int) :
    (pyModify l i u).map h = pyModify (l.map h) i u' := by
  rw [pyModify, pyModify, List.length_map]
  cases pyResolve l.length i with
  | none => rfl
  | some n => exact map_modifyNth h u u' hc n l

theorem map_pyModify2 (e : Cell → Cell) (u u' : Cell → Cell)
    (hc : ∀ x, e (u x) = u' (e x)) (g : List (List Cell)) (r c : Int) :
    (pyModify2 g r c u).map (List.map e) = pyModify2 (g.map (List.map e)) r c u' := by
  rw [pyModify2, pyModify2]
  exact map_pyModify (List.map e) _ _ (fun row => map_pyModify e u u' hc row c) g r

theorem map_markIter {G G' : Type _} (mape : G → G') (body : Nat → G → G)
    (body' : Nat → G' → G') (hb : ∀ s g, mape (body s g) = body' s (mape g)) :
    ∀ (n J : Nat) (g : G), mape (markIter body n J g) = markIter body' n J (mape g)
  | 0, _, _ => rfl
  | n + 1, J, g => by
    rw [markIter, markIter, map_markIter mape body body' hb n (J + 1) (body J g), hb J g]

theorem map_whileMark (e : Cell → Cell) (body body' : Nat → List (List Cell) → List (List Cell))
    (hb : ∀ s g, (body s g).map (List.map e) = body' s (g.map (List.map e)))
    (J K : Nat) (g : List (List Cell)) :
    (whileMark body J K g).map (List.map e) = whileMark body' J K (g.map (List.map e)) := by
  rw [whileMark, whileMark]
  exact map_markIter (fun g => g.map (List.map e)) body body' hb (K - J) J g

theorem processVertical_tmap (e : Cell → Cell)
    (hL : ∀ x, e (setLeft x) = setLeft (e x)) (hR : ∀ x, e (setRight x) = setRight (e x))
    (jtol : ℚ) (t : Table) (v : Segment) :
    processVertical jtol (tmap e t) v = tmap e (processVertical jtol t v) := by
  show processVertical jtol (Table.mk t.cols t.rows (t.cells.map (List.map e)) t.nocont_) v =
    tmap e (processVertical jtol t v)
  simp only [processVertical]
  split
  · rfl
  · split
    · simp only [tmap]
      congr 1
      exact (map_whileMark e _ _
        (fun s g => map_pyModify2 e setLeft setLeft hL g (s : Int) 0) _ _ _).symm
    · split
      · simp only [tmap]
        congr 1
        exact (map_whileMark e _ _
          (fun s g => map_pyModify2 e setRight setRight hR g (s : Int)
            ((t.cols.length : Int) - 1)) _ _ _).symm
      · simp only [tmap]
        congr 1
        refine (map_whileMark e _ _ (fun s g => ?_) _ _ _).symm
        rw [map_pyModify2 e setRight setRight hR, map_pyModify2 e setLeft setLeft hL]

theorem processHorizontal_tmap (e : Cell → Cell)
    (hT : ∀ x, e (setTop x) = setTop (e x)) (hB : ∀ x, e (setBottom x) = setBottom (e x))
    (jtol : ℚ) (t : Table) (h : Segment) :
    processHorizontal jtol (tmap e t) h = tmap e (processHorizontal jtol t h) := by
  show processHorizontal jtol (Table.mk t.cols t.rows (t.cells.map (List.map e)) t.nocont_) h =
    tmap e (processHorizontal jtol t h)
  simp only [processHorizontal]
  split
  · rfl
  · split
    · simp only [tmap]
      congr 1
      exact (map_whileMark e _ _
        (fun s g => map_pyModify2 e setTop setTop hT g 0 (s : Int)) _ _ _).symm
    · split
      · simp only [tmap]
        congr 1
        exact (map_whileMark e _ _
          (fun s g => map_pyModify2 e setBottom setBottom hB g
            ((t.rows.length : Int) - 1) (s : Int)) _ _ _).symm
      · simp only [tmap]
        congr 1
        refine (map_whileMark e _ _ (fun s g => ?_) _ _ _).symm
        rw [map_pyModify2 e setBottom setBottom hB, map_pyModify2 e setTop setTop hT]

theorem foldl_comm (mape : Table → Table) (step : Table → Segment → Table)
    (hstep : ∀ t s, mape (step t s) = step (mape t) s) :
    ∀ (l : List Segment) (t : Table), mape (l.foldl step t) = l.foldl step (mape t)
  | [], _ => rfl
  | s :: l, t => by
    rw [List.foldl_cons, List.foldl_cons, foldl_comm mape step hstep l, hstep]

theorem set_edges_tmap (e : Cell → Cell)
    (hL : ∀ x, e (setLeft x) = setLeft (e x)) (hR : ∀ x, e (setRight x) = setRight (e x))
    (hT : ∀ x, e (setTop x) = setTop (e x)) (hB : ∀ x, e (setBottom x) = setBottom (e x))
    (t : Table) (vs hs : List Segment) (jtol : ℚ) :
    set_edges (tmap e t) vs hs jtol = tmap e (set_edges t vs hs jtol) := by
  rw [set_edges, set_edges]
  rw [← foldl_comm (tmap e) (processVertical jtol)
    (fun t s => (processVertical_tmap e hL hR jtol t s).symm) vs t]
  rw [← foldl_comm (tmap e) (processHorizontal jtol)
    (fun t s => (processHorizontal_tmap e hT hB jtol t s).symm) hs _]

theorem set_spanning_tmap (e : Cell → Cell) (hc : ∀ x, e (spanCell x) = spanCell (e x))
    (t : Table) : set_spanning (tmap e t) = tmap e (set_spanning t) := by
  show Table.mk t.cols t.rows ((t.cells.map (List.map e)).map
    (fun row => row.map spanCell)) t.nocont_ = _
  rw [tmap, set_spanning]
  refine congrArg (fun cl => Table.mk t.cols t.rows cl t.nocont_) ?_
  simp only [List.map_map]
  refine List.map_congr_left (fun row _ => ?_)
  simp only [Function.comp_def, List.map_map]
  exact List.map_congr_left (fun x _ => (hc x).symm)

theorem cellAt_tmap (e : Cell → Cell) (t : Table) (r c : Nat) :
    cellAt (tmap e t) r c = (cellAt t r c).map e := by
  rw [cellAt, cellAt, tmap]
  show gcell (t.cells.map (List.map e)) r c = _
  rw [gcell, gcell, List.get?_map]
  cases t.cells.get? r with
  | none => rfl
  | some row =>
    simp only [Option.map_some', Option.some_bind]
    rw [List.get?_map]

theorem eraseText_setLeft (x : Cell) : eraseText (setLeft x) = setLeft (eraseText x) := rfl

theorem eraseText_setRight (x : Cell) : eraseText (setRight x) = setRight (eraseText x) := rfl

theorem eraseText_setTop (x : Cell) : eraseText (setTop x) = setTop (eraseText x) := rfl

theorem eraseText_setBottom (x : Cell) : eraseText (setBottom x) = setBottom (eraseText x) :=
  rfl

theorem eraseText_spanCell (x : Cell) : eraseText (spanCell x) = spanCell (eraseText x) := by
  rcases x with ⟨x1, y1, x2, y2, l, r, tp, b, sh, sv, tx⟩
  cases l <;> cases r <;> cases tp <;> cases b <;> rfl

theorem tmap_eraseText_withTexts (f : Nat → Nat → String) (t : Table) :
    tmap eraseText (withTexts f t) = tmap eraseText t := by
  rw [tmap, tmap, withTexts]
  refine congrArg (fun cl => Table.mk t.cols t.rows cl t.nocont_) ?_
  show (t.cells.enum.map _).map (List.map eraseText) = _
  rw [List.map_map]
  calc t.cells.enum.map ((List.map eraseText) ∘ fun p =>
        p.2.enum.map (fun q => { q.2 with text := f p.1 q.1 }))
      = t.cells.enum.map (fun p => p.2.map eraseText) := by
        refine List.map_congr_left (fun p _ => ?_)
        show (p.2.enum.map (fun q => { q.2 with text := f p.1 q.1 })).map eraseText = _
        rw [List.map_map]
        calc p.2.enum.map (eraseText ∘ fun q => { q.2 with text := f p.1 q.1 })
            = p.2.enum.map (eraseText ∘ Prod.snd) :=
              List.map_congr_left (fun q _ => rfl)
          _ = (p.2.enum.map Prod.snd).map eraseText := by rw [List.map_map]
          _ = p.2.map eraseText := by rw [List.enum_map_snd]
    _ = (t.cells.enum.map Prod.snd).map (List.map eraseText) := by rw [List.map_map]; rfl
    _ = t.cells.map (List.map eraseText) := by rw [List.enum_map_snd]

theorem textRows_pyModify2 (u : Cell → Cell)
    (hu : ∀ x, (get_text (u x)).trim = (get_text x).trim)
    (g : List (List Cell)) (r c : Int) :
    textRows (pyModify2 g r c u) = textRows g := by
  have hrow : ∀ row : List Cell,
      (pyModify row c u).map (fun cl => (get_text cl).trim) =
        row.map (fun cl => (get_text cl).trim) := by
    intro row
    rw [map_pyModify (fun cl => (get_text cl).trim) u (fun x => x) hu row c, pyModify_id]
  rw [textRows, textRows, pyModify2]
  rw [map_pyModify (fun row : List Cell => row.map (fun cl => (get_text cl).trim))
    (fun row => pyModify row c u) (fun x => x) hrow g r, pyModify_id]

theorem textRows_processVertical (jtol : ℚ) (t : Table) (v : Segment) :
    textRows (processVertical jtol t v).cells = textRows t.cells := by
  simp only [processVertical]
  split
  · rfl
  · split
    · exact markIter_rel (fun g g' => textRows g' = textRows g) (fun g => rfl)
        (fun h1 h2 => h2.trans h1) _
        (fun s g => textRows_pyModify2 setLeft (fun x => rfl) g (s : Int) 0) _ _ _
    · split
      · exact markIter_rel (fun g g' => textRows g' = textRows g) (fun g => rfl)
          (fun h1 h2 => h2.trans h1) _
          (fun s g => textRows_pyModify2 setRight (fun x => rfl) g (s : Int)
            ((t.cols.length : Int) - 1)) _ _ _
      · exact markIter_rel (fun g g' => textRows g' = textRows g) (fun g => rfl)
          (fun h1 h2 => h2.trans h1) _
          (fun s g => (textRows_pyModify2 setRight (fun x => rfl) _ (s : Int) _).trans
            (textRows_pyModify2 setLeft (fun x => rfl) g (s : Int) _)) _ _ _

theorem textRows_processHorizontal (jtol : ℚ) (t : Table) (h : Segment) :
    textRows (processHorizontal jtol t h).cells = textRows t.cells := by
  simp only [processHorizontal]
  split
  · rfl
  · split
    · exact markIter_rel (fun g g' => textRows g' = textRows g) (fun g => rfl)
        (fun h1 h2 => h2.trans h1) _
        (fun s g => textRows_pyModify2 setTop (fun x => rfl) g 0 (s : Int)) _ _ _
    · split
      · exact markIter_rel (fun g g' => textRows g' = textRows g) (fun g => rfl)
          (fun h1 h2 => h2.trans h1) _
          (fun s g => textRows_pyModify2 setBottom (fun x => rfl) g
            ((t.rows.length : Int) - 1) (s : Int)) _ _ _
      · exact markIter_rel (fun g g' => textRows g' = textRows g) (fun g => rfl)
          (fun h1 h2 => h2.trans h1) _
          (fun s g => (textRows_pyModify2 setBottom (fun x => rfl) _ _ (s : Int)).trans
            (textRows_pyModify2 setTop (fun x => rfl) g _ (s : Int))) _ _ _

theorem foldl_table_rel (R : Table → Table → Prop) (hrefl : ∀ t, R t t)
    (htrans : ∀ {a b c : Table}, R a b → R b c → R a c)
    (step : Table → Segment → Table) (hstep : ∀ t s, R t (step t s)) :
    ∀ (l : List Segment) (t : Table), R t (l.foldl step t)
  | [], t => hrefl t
  | s :: l, t => htrans (hstep t s) (foldl_table_rel R hrefl htrans step hstep l (step t s))

theorem textRows_set_edges (t : Table) (vs hs : List Segment) (jtol : ℚ) :
    textRows (set_edges t vs hs jtol).cells = textRows t.cells := by
  rw [set_edges]
  have h1 := foldl_table_rel (fun a b => textRows b.cells = textRows a.cells) (fun _ => rfl)
    (fun hab hbc => hbc.trans hab) (processVertical jtol)
    (fun t s => textRows_processVertical jtol t s) vs t
  have h2 := foldl_table_rel (fun a b => textRows b.cells = textRows a.cells) (fun _ => rfl)
    (fun hab hbc => hbc.trans hab) (processHorizontal jtol)
    (fun t s => textRows_processHorizontal jtol t s) hs
    (vs.foldl (processVertical jtol) t)
  exact h2.trans h1

theorem textRows_set_spanning (t : Table) :
    textRows (set_spanning t).cells = textRows t.cells := by
  show ((t.cells.map (fun row => row.map spanCell)).map _) = _
  rw [List.map_map]
  refine List.map_congr_left (fun row _ => ?_)
  show (row.map spanCell).map (fun cl => (get_text cl).trim) =
    row.map (fun cl => (get_text cl).trim)
  rw [List.map_map]
  refine List.map_congr_left (fun x _ => ?_)
  show (get_text (spanCell x)).trim = (get_text x).trim
  rw [get_text, get_text, (spanCell_frame x).2.2.2.2.2.2.2.2]

theorem get_list_pipeline (t : Table) (vs hs : List Segment) (jtol : ℚ) :
    get_list (set_spanning (set_edges t vs hs jtol)) = get_list t := by
  show textRows _ = textRows t.cells
  rw [textRows_set_spanning, textRows_set_edges]

theorem pipeline2x2_erase (f : Nat → Nat → String) :
    tmap eraseText (pipeline2x2 f) = tmap eraseText grid2x2exact := by
  rw [pipeline2x2, grid2x2exact]
  rw [← set_spanning_tmap eraseText eraseText_spanCell]
  rw [← set_edges_tmap eraseText eraseText_setLeft eraseText_setRight eraseText_setTop
    eraseText_setBottom]
  rw [tmap_eraseText_withTexts]
  rw [set_edges_tmap eraseText eraseText_setLeft eraseText_setRight eraseText_setTop
    eraseText_setBottom]
  rw [set_spanning_tmap eraseText eraseText_spanCell]

set_option maxRecDepth 1000000 in
/-- C8: on the concrete 2×2 grid (`cols = [(0,5),(5,10)]`,
`rows = [(10,5),(5,0)]`) with the three full-height vertical lines at
`x = 0, 5, 10` and the three full-width horizontal lines at `y = 0, 5, 10`
(tolerance 2), running `set_edges` then `set_spanning` yields bounded-edge
count 4 and no span flags on all four cells, and `get_list` returns the 2×2
array of each cell's text payload stripped of surrounding whitespace,
whatever the upstream text assignment `f` was. -/
theorem end_to_end_2x2 (f : Nat → Nat → String) :
    ((cellAt (pipeline2x2 f) 0 0).map get_bounded_edges = some 4) ∧
    ((cellAt (pipeline2x2 f) 0 1).map get_bounded_edges = some 4) ∧
    ((cellAt (pipeline2x2 f) 1 0).map get_bounded_edges = some 4) ∧
    ((cellAt (pipeline2x2 f) 1 1).map get_bounded_edges = some 4) ∧
    ((cellAt (pipeline2x2 f) 0 0).map Cell.spanning_h = some false) ∧
    ((cellAt (pipeline2x2 f) 0 1).map Cell.spanning_h = some false) ∧
    ((cellAt (pipeline2x2 f) 1 0).map Cell.spanning_h = some false) ∧
    ((cellAt (pipeline2x2 f) 1 1).map Cell.spanning_h = some false) ∧
    ((cellAt (pipeline2x2 f) 0 0).map Cell.spanning_v = some false) ∧
    ((cellAt (pipeline2x2 f) 0 1).map Cell.spanning_v = some false) ∧
    ((cellAt (pipeline2x2 f) 1 0).map Cell.spanning_v = some false) ∧
    ((cellAt (pipeline2x2 f) 1 1).map Cell.spanning_v = some false) ∧
    get_list (pipeline2x2 f) =
      [[(f 0 0).trim, (f 0 1).trim], [(f 1 0).trim, (f 1 1).trim]] := by
  have hproj : ∀ {β : Type} (proj : Cell → β), proj ∘ eraseText = proj → ∀ r c : Nat,
      (cellAt (pipeline2x2 f) r c).map proj =
        (cellAt (tmap eraseText grid2x2exact) r c).map proj := by
    intro β proj hfun r c
    rw [← pipeline2x2_erase f, cellAt_tmap, Option.map_map, hfun]
  have hfb : (get_bounded_edges ∘ eraseText) = get_bounded_edges := funext fun x => rfl
  have hfh : (Cell.spanning_h ∘ eraseText) = Cell.spanning_h := funext fun x => rfl
  have hfv : (Cell.spanning_v ∘ eraseText) = Cell.spanning_v := funext fun x => rfl
  refine ⟨?_, ?_, ?_, ?_, ?_, ?_, ?_, ?_, ?_, ?_, ?_, ?_, ?_⟩
  · rw [hproj get_bounded_edges hfb 0 0]; decide
  · rw [hproj get_bounded_edges hfb 0 1]; decide
  · rw [hproj get_bounded_edges hfb 1 0]; decide
  · rw [hproj get_bounded_edges hfb 1 1]; decide
  · rw [hproj Cell.spanning_h hfh 0 0]; decide
  · rw [hproj Cell.spanning_h hfh 0 1]; decide
  · rw [hproj Cell.spanning_h hfh 1 0]; decide
  · rw [hproj Cell.spanning_h hfh 1 1]; decide
  · rw [hproj Cell.spanning_v hfv 0 0]; decide
  · rw [hproj Cell.spanning_v hfv 0 1]; decide
  · rw [hproj Cell.spanning_v hfv 1 0]; decide
  · rw [hproj Cell.spanning_v hfv 1 1]; decide
  · rw [pipeline2x2, get_list_pipeline]
    rfl

set_option maxRecDepth 1000000 in
/-- C8 witness at a concrete text assignment. -/
theorem end_to_end_2x2_witness :
    ((cellAt (pipeline2x2 (fun _ _ => " a ")) 0 0).map get_bounded_edges = some 4) ∧
    ((cellAt (pipeline2x2 (fun _ _ => " a ")) 0 1).map get_bounded_edges = some 4) ∧
    ((cellAt (pipeline2x2 (fun _ _ => " a ")) 1 0).map get_bounded_edges = some 4) ∧
    ((cellAt (pipeline2x2 (fun _ _ => " a ")) 1 1).map get_bounded_edges = some 4) ∧
    ((cellAt (pipeline2x2 (fun _ _ => " a ")) 0 0).map Cell.spanning_h = some false) ∧
    ((cellAt (pipeline2x2 (fun _ _ => " a ")) 0 1).map Cell.spanning_h = some false) ∧
    ((cellAt (pipeline2x2 (fun _ _ => " a ")) 1 0).map Cell.spanning_h = some false) ∧
    ((cellAt (pipeline2x2 (fun _ _ => " a ")) 1 1).map Cell.spanning_h = some false) ∧
    ((cellAt (pipeline2x2 (fun _ _ => " a ")) 0 0).map Cell.spanning_v = some false) ∧
    ((cellAt (pipeline2x2 (fun _ _ => " a ")) 0 1).map Cell.spanning_v = some false) ∧
    ((cellAt (pipeline2x2 (fun _ _ => " a ")) 1 0).map Cell.spanning_v = some false) ∧
    ((cellAt (pipeline2x2 (fun _ _ => " a ")) 1 1).map Cell.spanning_v = some false) ∧
    get_list (pipeline2x2 (fun _ _ => " a ")) =
      [[" a ".trim, " a ".trim], [" a ".trim, " a ".trim]] :=
  end_to_end_2x2 (fun _ _ => " a ")

/-- C10 witness at a concrete input. -/
theorem set_spanning_idem_frame_witness :
    set_spanning (set_spanning (Table.init [(0,5)] [(10,5)])) =
      set_spanning (Table.init [(0,5)] [(10,5)]) ∧
    (set_spanning (Table.init [(0,5)] [(10,5)])).cols = (Table.init [(0,5)] [(10,5)]).cols ∧
    (set_spanning (Table.init [(0,5)] [(10,5)])).rows = (Table.init [(0,5)] [(10,5)]).rows ∧
    (set_spanning (Table.init [(0,5)] [(10,5)])).nocont_ =
      (Table.init [(0,5)] [(10,5)]).nocont_ ∧
    (set_spanning (Table.init [(0,5)] [(10,5)])).cells.length =
      (Table.init [(0,5)] [(10,5)]).cells.length ∧
    (∀ r c, cellAt (set_spanning (Table.init [(0,5)] [(10,5)])) r c =
      (cellAt (Table.init [(0,5)] [(10,5)]) r c).map spanCell) ∧
    (∀ cell : Cell, (spanCell cell).left = cell.left ∧ (spanCell cell).right = cell.right ∧
      (spanCell cell).top = cell.top ∧ (spanCell cell).bottom = cell.bottom ∧
      (spanCell cell).x1 = cell.x1 ∧ (spanCell cell).y1 = cell.y1 ∧
      (spanCell cell).x2 = cell.x2 ∧ (spanCell cell).y2 = cell.y2 ∧
      (spanCell cell).text = cell.text) :=
  set_spanning_idem_frame (Table.init [(0,5)] [(10,5)])

end Camelot
